import Mathlib

/-!
# chronyc input plugin: output parsing and command sequencing

A shallow embedding of `plugins/inputs/chronyc/chrony.go`.

* Go strings are Lean strings; `strings.Split` with a one-character separator and
  `strings.TrimRight` are defined on the character lists.
* `strconv.ParseInt` belongs to the Go standard library; it is written out here for an
  explicit base (digits, optional sign, range check).  `strconv.ParseFloat` produces an
  IEEE-754 value; the float type `F` and the float parser are parameters of the
  development, so every theorem holds for whatever `strconv.ParseFloat` does.
* A Go `map` that may be `nil` is an `Option` of an association list that keeps the order of
  the map literal in the source.
* The three results `(tFields, tTags, err)` of an extractor are kept as a triple, so that
  "no partial field-set next to an error" is a statement and not a typing fact.
* `parseChronycOutput` is a loop that need not terminate; it is embedded as a step function
  on the loop state together with a fuel-indexed driver.
* `Gather` takes the command executor (`execCommand` with
  `internal.CombinedOutputTimeout`) as a parameter and logs the calls it makes.
-/

set_option maxRecDepth 100000

namespace Chronyc

/-! ## Go library helpers -/

/-- The function `strings.Split(s, sep)` for a one-character separator, on character lists.
The empty input yields one empty piece. -/
def splitChars (sep : Char) : List Char → List (List Char)
  | [] => [[]]
  | c :: cs =>
    if c = sep then [] :: splitChars sep cs
    else
      match splitChars sep cs with
      | [] => [[c]]
      | w :: ws => (c :: w) :: ws

/-- The function `strings.Split(s, sep)` for a one-character separator. -/
def split (s : String) (sep : Char) : List String :=
  (splitChars sep s.data).map String.mk

/-- The function `strings.TrimRight(s, cutset)` for a one-character cutset. -/
def trimRight (s : String) (cut : Char) : String :=
  String.mk (s.data.rdropWhile (fun c => c == cut))

/-- The constant `strconv.IntSize` (the size of `int`) on a 64-bit target. -/
def IntSize : Nat := 64

/-- Value of a digit as `strconv.ParseUint` reads it. -/
def digitVal (c : Char) : Option Nat :=
  if '0' ≤ c ∧ c ≤ '9' then some (c.toNat - '0'.toNat)
  else if 'a' ≤ c ∧ c ≤ 'z' then some (c.toNat - 'a'.toNat + 10)
  else if 'A' ≤ c ∧ c ≤ 'Z' then some (c.toNat - 'A'.toNat + 10)
  else none

/-- Digit loop of `strconv.ParseUint` for an explicit base: every character must be a digit
below the base (an underscore is not accepted when the base is explicit). -/
def parseDigits (base : Nat) : List Char → Nat → Option Nat
  | [], n => some n
  | c :: cs, n =>
    match digitVal c with
    | none => none
    | some d => if d < base then parseDigits base cs (n * base + d) else none

/-- The function `strconv.ParseInt(s, base, bitSize)` for an explicit base (here 8 or 10):
`none` stands for a non-nil error (syntax or range). -/
def ParseInt (s : String) (base bitSize : Nat) : Option Int :=
  match s.data with
  | [] => none
  | c :: cs =>
    let neg := decide (c = '-')
    let ds := if c = '+' ∨ c = '-' then cs else c :: cs
    if ds = [] then none
    else
      match parseDigits base ds 0 with
      | none => none
      | some un =>
        let bits := if bitSize = 0 then IntSize else bitSize
        let cutoff := 2 ^ (bits - 1)
        if neg = false ∧ un ≥ cutoff then none
        else if neg = true ∧ un > cutoff then none
        else some (if neg then -(un : Int) else (un : Int))

/-! ## Data model -/

/-- Why a field of a line with the right field count could not be converted. -/
inductive FormatCause where
  | unknownClockMode (field : String)
  | unknownClockState (field : String)
  | numError (func : String) (num : String)
  deriving DecidableEq

/-- The two error types of the extractors. -/
inductive ParseError where
  | fieldCountError (got : Nat) (expected : Nat)
  | formatError (cause : FormatCause)
  deriving DecidableEq

/-- A value of a field-set (`interface{}` holding `int`, `int64`, `float64` or `string`). -/
inductive Value (F : Type) where
  | int (i : Int)
  | int64 (i : Int)
  | float (f : F)
  | str (s : String)
  deriving DecidableEq

/-- A field-set `map[string]interface{}`; `none` is the nil map. -/
abbrev FieldSet (F : Type) := Option (List (String × Value F))

/-- A tag-set `map[string]string`; `none` is the nil map. -/
abbrev TagSet := Option (List (String × String))

/-- The results `(tFields, tTags, err)` of an extractor. -/
structure Ret (F : Type) where
  fields : FieldSet F
  tags : TagSet
  err : Option ParseError
  deriving DecidableEq

/-- One call `acc.AddFields(measurement, fields, tags)`. -/
structure Record (F : Type) where
  measurement : String
  fields : FieldSet F
  tags : TagSet
  deriving DecidableEq

section Extractors

variable {F : Type} (parseFloat : String → Option F)

/-- A call `strconv.ParseInt(field, base, bitSize)` inside an extractor loop. -/
def convInt (field : String) (base bitSize : Nat) : Except FormatCause Int :=
  match ParseInt field base bitSize with
  | some v => .ok v
  | none => .error (.numError "ParseInt" field)

/-- A call `strconv.ParseFloat(field, 64)` inside an extractor loop. -/
def convFloat (field : String) : Except FormatCause F :=
  match parseFloat field with
  | some v => .ok v
  | none => .error (.numError "ParseFloat" field)

/-- The map `modes` of `parseSourcesLine`. -/
def modes : List (String × Int) :=
  [("^", 0), ("=", 1), ("#", 2), (" ", -1)]

/-- The map `states` of `parseSourcesLine`. -/
def states : List (String × Int) :=
  [("*", 0), ("?", 1), ("x", 2), ("~", 3), ("+", 4), ("-", 5), (" ", -1)]

/-- The lookup `clockMode, found = modes[field]` with its error. -/
def convMode (field : String) : Except FormatCause Int :=
  match modes.lookup field with
  | some v => .ok v
  | none => .error (.unknownClockMode field)

/-- The lookup `clockState, found = states[field]` with its error. -/
def convState (field : String) : Except FormatCause Int :=
  match states.lookup field with
  | some v => .ok v
  | none => .error (.unknownClockState field)

/-- The end of an extractor: a conversion error becomes `nil, nil, formatError{err}`. -/
def finishLine (r : Except FormatCause (List (String × Value F) × List (String × String))) :
    Ret F :=
  match r with
  | .error e => ⟨none, none, some (.formatError e)⟩
  | .ok (tFields, tTags) => ⟨some tFields, some tTags, none⟩

/-- The function `parseSourcesLine`. -/
def parseSourcesLine (fields : List String) : Ret F :=
  let n := fields.length
  if n ≠ 10 then ⟨none, none, some (.fieldCountError n 10)⟩
  else finishLine (do
    let clockMode ← convMode (fields.getD 0 "")
    let clockState ← convState (fields.getD 1 "")
    let clockRef := fields.getD 2 ""
    let stratum ← convInt (fields.getD 3 "") 10 0
    let poll ← convInt (fields.getD 4 "") 10 0
    let reach ← convInt (fields.getD 5 "") 8 0
    let lastRx ← convInt (fields.getD 6 "") 10 0
    let offset ← convFloat parseFloat (fields.getD 7 "")
    let rawOffset ← convFloat parseFloat (fields.getD 8 "")
    let errorMargin ← convFloat parseFloat (fields.getD 9 "")
    pure
      ([("clockMode", Value.int clockMode),
        ("clockState", Value.int clockState),
        ("stratum", Value.int64 stratum),
        ("poll", Value.int64 poll),
        ("reach", Value.int64 reach),
        ("lastRx", Value.int64 lastRx),
        ("offset", Value.float offset),
        ("rawOffset", Value.float rawOffset),
        ("errorMargin", Value.float errorMargin)],
       [("command", "sources"),
        ("clockId", clockRef)]))

/-- The function `parseSourceStatsLine`. -/
def parseSourceStatsLine (fields : List String) : Ret F :=
  let n := fields.length
  if n ≠ 8 then ⟨none, none, some (.fieldCountError n 8)⟩
  else finishLine (do
    let clockRef := fields.getD 0 ""
    let np ← convInt (fields.getD 1 "") 10 64
    let nr ← convInt (fields.getD 2 "") 10 64
    let span ← convInt (fields.getD 3 "") 10 64
    let frequency ← convFloat parseFloat (fields.getD 4 "")
    let freqSkew ← convFloat parseFloat (fields.getD 5 "")
    let offset ← convFloat parseFloat (fields.getD 6 "")
    let stdDev ← convFloat parseFloat (fields.getD 7 "")
    pure
      ([("np", Value.int64 np),
        ("nr", Value.int64 nr),
        ("span", Value.int64 span),
        ("frequency", Value.float frequency),
        ("freqSkew", Value.float freqSkew),
        ("offset", Value.float offset),
        ("stdDev", Value.float stdDev)],
       [("command", "sourcestats"),
        ("clockId", clockRef)]))

/-- The function `parseNtpData`. -/
def parseNtpData (fields : List String) : Ret F :=
  let n := fields.length
  if n ≠ 33 then ⟨none, none, some (.fieldCountError n 33)⟩
  else finishLine (do
    let remoteAddress := fields.getD 0 ""
    let remoteAddressHex := fields.getD 1 ""
    let remotePort ← convInt (fields.getD 2 "") 10 64
    let localAddress := fields.getD 3 ""
    let localAddressHex := fields.getD 4 ""
    let leapStatusStr := fields.getD 5 ""
    let version ← convInt (fields.getD 6 "") 10 64
    let clockModeStr := fields.getD 7 ""
    let stratum ← convInt (fields.getD 8 "") 10 64
    let pollInterval ← convInt (fields.getD 9 "") 10 64
    let pollIntervalSec ← convFloat parseFloat (fields.getD 10 "")
    let precision ← convInt (fields.getD 11 "") 10 64
    let precisionSec ← convFloat parseFloat (fields.getD 12 "")
    let rootDelay ← convFloat parseFloat (fields.getD 13 "")
    let rootDispersion ← convFloat parseFloat (fields.getD 14 "")
    let refIdHex := fields.getD 15 ""
    let refId := fields.getD 16 ""
    let refTime ← convFloat parseFloat (fields.getD 17 "")
    let offset ← convFloat parseFloat (fields.getD 18 "")
    let peerDelay ← convFloat parseFloat (fields.getD 19 "")
    let peerDispersion ← convFloat parseFloat (fields.getD 20 "")
    let responseTime ← convFloat parseFloat (fields.getD 21 "")
    let jitterAsymmetry ← convFloat parseFloat (fields.getD 22 "")
    let ntpTestsA := fields.getD 23 ""
    let ntpTestsB := fields.getD 24 ""
    let ntpTestsC := fields.getD 25 ""
    let interleaved := fields.getD 26 ""
    let authenticated := fields.getD 27 ""
    let txTimestamping := fields.getD 28 ""
    let rxTimestamping := fields.getD 29 ""
    let totalTX ← convInt (fields.getD 30 "") 10 64
    let totalRX ← convInt (fields.getD 31 "") 10 64
    let totalValidRX ← convInt (fields.getD 32 "") 10 64
    pure
      ([("remoteAddress", Value.str remoteAddress),
        ("remoteAddressHex", Value.str remoteAddressHex),
        ("remotePort", Value.int64 remotePort),
        ("localAddress", Value.str localAddress),
        ("localAddressHex", Value.str localAddressHex),
        ("leapStatus", Value.str leapStatusStr),
        ("version", Value.int64 version),
        ("clockModeStr", Value.str clockModeStr),
        ("stratum", Value.int64 stratum),
        ("pollInterval", Value.int64 pollInterval),
        ("pollIntervalSec", Value.float pollIntervalSec),
        ("precision", Value.int64 precision),
        ("precisionSec", Value.float precisionSec),
        ("rootDelay", Value.float rootDelay),
        ("rootDispersion", Value.float rootDispersion),
        ("refIdHex", Value.str refIdHex),
        ("refId", Value.str refId),
        ("refTime", Value.float refTime),
        ("offset", Value.float offset),
        ("peerDelay", Value.float peerDelay),
        ("peerDispersion", Value.float peerDispersion),
        ("responseTime", Value.float responseTime),
        ("jitterAsymmetry", Value.float jitterAsymmetry),
        ("ntpTestsA", Value.str ntpTestsA),
        ("ntpTestsB", Value.str ntpTestsB),
        ("ntpTestsC", Value.str ntpTestsC),
        ("interleaved", Value.str interleaved),
        ("authenticated", Value.str authenticated),
        ("txTimestamping", Value.str txTimestamping),
        ("rxTimestamping", Value.str rxTimestamping),
        ("totalTX", Value.int64 totalTX),
        ("totalRX", Value.int64 totalRX),
        ("totalValidRX", Value.int64 totalValidRX)],
       [("command", "ntpdata"),
        ("clockId", remoteAddress),
        ("clockIdHex", remoteAddressHex)]))

/-- The function `parseTrackingLine`. -/
def parseTrackingLine (fields : List String) : Ret F :=
  let n := fields.length
  if n ≠ 14 then ⟨none, none, some (.fieldCountError n 14)⟩
  else finishLine (do
    let refIdHex := fields.getD 0 ""
    let refId := fields.getD 1 ""
    let stratum ← convInt (fields.getD 2 "") 10 0
    let refTime ← convFloat parseFloat (fields.getD 3 "")
    let systemTime ← convFloat parseFloat (fields.getD 4 "")
    let lastOffset ← convFloat parseFloat (fields.getD 5 "")
    let rMSOffset ← convFloat parseFloat (fields.getD 6 "")
    let frequency ← convFloat parseFloat (fields.getD 7 "")
    let freqResidual ← convFloat parseFloat (fields.getD 8 "")
    let freqSkew ← convFloat parseFloat (fields.getD 9 "")
    let rootDelay ← convFloat parseFloat (fields.getD 10 "")
    let rootDispersion ← convFloat parseFloat (fields.getD 11 "")
    let updateInterval ← convFloat parseFloat (fields.getD 12 "")
    let leapStatusStr := fields.getD 13 ""
    pure
      ([("refId", Value.str refId),
        ("refIdHex", Value.str refIdHex),
        ("stratum", Value.int64 stratum),
        ("refTime", Value.float refTime),
        ("systemTimeOffset", Value.float systemTime),
        ("lastOffset", Value.float lastOffset),
        ("rmsOffset", Value.float rMSOffset),
        ("frequency", Value.float frequency),
        ("freqResidual", Value.float freqResidual),
        ("freqSkew", Value.float freqSkew),
        ("rootDelay", Value.float rootDelay),
        ("rootDispersion", Value.float rootDispersion),
        ("updateInterval", Value.float updateInterval),
        ("leapStatus", Value.str leapStatusStr)],
       [("command", "tracking"),
        ("clockId", "chrony")]))

/-- The function `parseServerStatsLine`. -/
def parseServerStatsLine (fields : List String) : Ret F :=
  let n := fields.length
  if n ≠ 5 then ⟨none, none, some (.fieldCountError n 5)⟩
  else finishLine (do
    let ntpPacketsReceived ← convInt (fields.getD 0 "") 10 64
    let ntpPacketsDropped ← convInt (fields.getD 1 "") 10 64
    let commandPacketsReceived ← convInt (fields.getD 2 "") 10 64
    let commandPacketsDropped ← convInt (fields.getD 3 "") 10 64
    let clientLogRecordsDropped ← convInt (fields.getD 4 "") 10 64
    pure
      ([("ntpPacketsReceived", Value.int64 ntpPacketsReceived),
        ("ntpPacketsDropped", Value.int64 ntpPacketsDropped),
        ("commandPacketsReceived", Value.int64 commandPacketsReceived),
        ("commandPacketsDropped", Value.int64 commandPacketsDropped),
        ("clientLogRecordsDropped", Value.int64 clientLogRecordsDropped)],
       [("command", "serverstats"),
        ("clockId", "chrony")]))

end Extractors

/-! ## The sequencer `parseChronycOutput` -/

/-- The map `singleLine` of `parseChronycOutput`. -/
def singleLineMap : List (String × Bool) :=
  [("tracking", true), ("serverstats", true), ("sources", false), ("sourcestats", false),
   ("ntpdata", false)]

/-- The index expression `singleLine[cmd]`: a missing key reads as `false`. -/
def singleLine (cmd : String) : Bool :=
  (singleLineMap.lookup cmd).getD false

/-- How a call of `parseChronycOutput` ends: `return nil`, one of the four `fmt.Errorf`
returns, or the run-time panic of a slice expression `cmds[1:]` on an empty slice. -/
inductive Exit where
  | nil
  | unknownCmd (cmd : String)
  | wrongFieldCount (cmd : String)
  | moreOutput (lines : List String)
  | notEnoughOutput (cmds : List String)
  | slicePanic
  deriving DecidableEq

/-- What a finished call leaves behind: the records handed to the accumulator, in the order of
the calls, and the way the call ended. -/
structure Result (F : Type) where
  records : List (Record F)
  exit : Exit
  deriving DecidableEq

/-- The variables of the loops of `parseChronycOutput`; `acc` lists the `AddFields` calls made
so far. The variable `line` is always `lines[0]`. -/
structure State (F : Type) where
  cmds : List String
  cmd : String
  lines : List String
  acc : List (Record F)
  deriving DecidableEq

/-- One pass through the body of the inner loop `Cmd`, or the end of the call. -/
inductive Step (F : Type) where
  | next (s : State F)
  | done (r : Result F)
  deriving DecidableEq

/-- The loop `for i, cmd := range cmds` after the loops: the first single-line command at
index `i` gives the error with `cmds[i:]`. -/
def remainingCheck : List String → Exit
  | [] => .nil
  | c :: cs => if singleLine c then .notEnoughOutput (c :: cs) else remainingCheck cs

/-- The statements after the loop `Lines`. -/
def finish (cmds : List String) (cmd : String) (lines : List String) : Exit :=
  if cmd = "" ∧ cmds.length = 0 ∧ lines.length > 0 then .moreOutput lines
  else if lines.length = 0 then remainingCheck cmds
  else .nil

section Sequencer

variable {F : Type} (parseFloat : String → Option F)

/-- The statement `switch cmd` that picks the extractor; `none` is the `default` case. -/
def dispatch (cmd : String) (fields : List String) : Option (Ret F) :=
  if cmd = "tracking" then some (parseTrackingLine parseFloat fields)
  else if cmd = "serverstats" then some (parseServerStatsLine fields)
  else if cmd = "sources" then some (parseSourcesLine parseFloat fields)
  else if cmd = "sourcestats" then some (parseSourceStatsLine parseFloat fields)
  else if cmd = "ntpdata" then some (parseNtpData parseFloat fields)
  else none

/-- The call `acc.AddFields("chronyc", tFields, tTags)` with the results of an extractor. -/
def addFields (r : Ret F) : Record F :=
  ⟨"chronyc", r.fields, r.tags⟩

/-- The part of a pass after `cmd` is known to be set: split the line, run the extractor and
act on the type of its error. -/
def process (cmds : List String) (cmd : String) (line : String) (rest : List String)
    (acc : List (Record F)) : Step F :=
  let fields := split line ','
  match dispatch parseFloat cmd fields with
  | none => .done ⟨acc, .unknownCmd cmd⟩
  | some r =>
    match r.err with
    | none =>
      -- acc.AddFields; break Cmd; lines = lines[1:]
      .next ⟨cmds, if singleLine cmd then "" else cmd, rest, acc ++ [addFields r]⟩
    | some (.fieldCountError _ _) =>
      if singleLine cmd then .done ⟨acc, .wrongFieldCount cmd⟩
      else
        match cmds with
        | [] => .done ⟨acc, .slicePanic⟩
        | _ :: cmds1 => .next ⟨cmds1, "", line :: rest, acc⟩
    | some (.formatError _) =>
      -- only printed; the loop `Cmd` goes round again
      .next ⟨cmds, cmd, line :: rest, acc⟩

/-- One pass: the test of the loop `Lines`, the selection of the command when `cmd` is empty,
then `process`. -/
def step (s : State F) : Step F :=
  match s.lines with
  | [] => .done ⟨s.acc, finish s.cmds s.cmd s.lines⟩
  | line :: rest =>
    if s.cmd = "" then
      match s.cmds with
      | [] => .done ⟨s.acc, finish s.cmds s.cmd s.lines⟩
      | c :: cs => process parseFloat (if singleLine c then cs else c :: cs) c line rest s.acc
    else process parseFloat s.cmds s.cmd line rest s.acc

/-- Runs at most `fuel` passes; `none` when the call has not ended by then. -/
def run : Nat → State F → Option (Result F)
  | 0, _ => none
  | fuel + 1, s =>
    match step parseFloat s with
    | .done r => some r
    | .next s1 => run fuel s1

/-- The lines `strings.Split(strings.TrimRight(out, "\n"), "\n")`. -/
def outputLines (out : String) : List String :=
  split (trimRight out '\n') '\n'

/-- The state at the first test of the loop `Lines`. -/
def initState (cmds : List String) (out : String) : State F :=
  ⟨cmds, "", outputLines out, []⟩

/-- The function `parseChronycOutput`, run for at most `fuel` passes of the inner loop. -/
def parseChronycOutput (fuel : Nat) (cmds : List String) (out : String) : Option (Result F) :=
  run parseFloat fuel (initState cmds out)

/-- The loop state after `n` passes; `none` when the call has ended before. -/
def stateAfter : Nat → State F → Option (State F)
  | 0, s => some s
  | n + 1, s =>
    match step parseFloat s with
    | .done _ => none
    | .next s1 => stateAfter n s1

/-- The `AddFields` calls made within the first `n` passes, whether or not the call has ended
by then. -/
def recordsAfter : Nat → State F → List (Record F)
  | 0, s => s.acc
  | n + 1, s =>
    match step parseFloat s with
    | .done r => r.records
    | .next s1 => recordsAfter n s1

/-- Whether the pass from `s` reaches the statement `switch cmd` with a command that has an
extractor, that is, whether the pass hands the line `lines[0]` to an extractor. -/
def invokes (s : State F) : Bool :=
  match s.lines with
  | [] => false
  | line :: _ =>
    if s.cmd = "" then
      match s.cmds with
      | [] => false
      | c :: _ => (dispatch parseFloat c (split line ',')).isSome
    else (dispatch parseFloat s.cmd (split line ',')).isSome

/-- The number of extractor calls within the first `n` passes. -/
def invocations : Nat → State F → Nat
  | 0, _ => 0
  | n + 1, s =>
    (if invokes parseFloat s then 1 else 0) +
      match step parseFloat s with
      | .done _ => 0
      | .next s1 => invocations n s1

end Sequencer

/-! ## The method `Gather` -/

/-- The fields of the type `Chrony`. -/
structure Chrony where
  UseSudo : Bool
  ChronycCommands : List String
  path : String
  deriving DecidableEq

/-- How a call of `Gather` ends: the error "chronyc not found", the error "failed to run
command" with `cmd.Args`, the error of the executor and its output, or whatever
`parseChronycOutput` returned. -/
inductive GatherExit where
  | notFound
  | runFailed (args : List String) (err : String) (out : String)
  | parsed (exit : Exit)
  deriving DecidableEq

/-- What a call of `Gather` does: the calls `execCommand(name, argv...)` it made, and, when it
has returned, the records handed to the accumulator and the way it ended. -/
structure GatherRun (F : Type) where
  calls : List (String × List String)
  result : Option (List (Record F) × GatherExit)
  deriving DecidableEq

section Gather

variable {F : Type} (parseFloat : String → Option F)

/-- The method `Gather`. The parameter `exec` stands for `execCommand` followed by
`internal.CombinedOutputTimeout`: from the executable and its arguments it gives the combined
output and the error, if any. -/
def Gather (exec : String → List String → String × Option String) (fuel : Nat) (c : Chrony) :
    GatherRun F :=
  if c.path.length = 0 then ⟨[], some ([], GatherExit.notFound)⟩
  else
    let name := c.path
    let argv : List String := []
    let name := if c.UseSudo then "sudo" else name
    let argv := if c.UseSudo then argv ++ ["-n", c.path] else argv
    let argv := argv ++ ["-c", "-m"]
    let argv := argv ++ c.ChronycCommands
    match exec name argv with
    | (out, some err) => ⟨[(name, argv)], some ([], GatherExit.runFailed (name :: argv) err out)⟩
    | (out, none) =>
      ⟨[(name, argv)],
        (parseChronycOutput parseFloat fuel c.ChronycCommands out).map
          (fun r => (r.records, GatherExit.parsed r.exit))⟩

end Gather

/-! ## The tag-sets of the specification -/

/-- The tag-set that the specification gives to a record of the command `c` made from the
fields `f` of a line: a `command` tag with the name of the command and a `clockId` tag, which
is `chrony` for tracking and serverstats, field 2 for sources, field 0 for sourcestats and
field 0 for ntpdata; ntpdata has the tag `clockIdHex` with field 1 as well. -/
def specTags (c : String) (f : List String) : List (String × String) :=
  if c = "tracking" ∨ c = "serverstats" then [("command", c), ("clockId", "chrony")]
  else if c = "sources" then [("command", c), ("clockId", f.getD 2 "")]
  else if c = "sourcestats" then [("command", c), ("clockId", f.getD 0 "")]
  else if c = "ntpdata" then [("command", c), ("clockId", f.getD 0 ""), ("clockIdHex", f.getD 1 "")]
  else []

/-! ## A float parser for evaluation -/

/-- A decimal number `mant * 10 ^ (-scale)` with a sign. -/
structure Decimal where
  neg : Bool
  mant : Nat
  scale : Nat
  deriving DecidableEq

/-- Reads the digits of a plain decimal literal; `seen` tells whether the point has been read. -/
def decimalDigits : List Char → Bool → Nat → Nat → Bool → Option (Nat × Nat)
  | [], _, mant, scale, any => if any then some (mant, scale) else none
  | c :: cs, seen, mant, scale, any =>
    if c = '.' then
      if seen then none else decimalDigits cs true mant scale any
    else if '0' ≤ c ∧ c ≤ '9' then
      decimalDigits cs seen (mant * 10 + (c.toNat - '0'.toNat)) (if seen then scale + 1 else scale)
        true
    else none

/-- A float parser used to evaluate the definitions on concrete lines: it accepts the plain
decimal literals (optional sign, digits, optional point) that chronyc prints and returns
their exact decimal value. The theorems below do not depend on it. -/
def parseDecimal (s : String) : Option Decimal :=
  match s.data with
  | [] => none
  | c :: cs =>
    match decimalDigits (if c = '+' ∨ c = '-' then cs else c :: cs) false 0 0 false with
    | none => none
    | some (mant, scale) => some ⟨decide (c = '-'), mant, scale⟩

/-! ## Test data -/

/-- The string `trackingOut` of `TestHelperProcess`, without its final newline. -/
def trackingLine : String :=
  "50505300,PPS,1,1541793798.895264285,-0.000001007,0.000000291,0.000000239,-17.957,0.000,0.005,0.000001000,0.000010123,16.0,Normal"

/-- The string `serverstatsOut` of `TestHelperProcess`, without its final newline. -/
def serverstatsLine : String :=
  "191,222,183,111,231"

/-- The output of the helper process for the commands of `TestGather`. -/
def testOutput : String :=
  trackingLine ++ "\n" ++ serverstatsLine ++ "\n"

/-- The record that `TestGather` expects for the tracking line, floats as exact decimals. -/
def testTrackingRecord : Record Decimal :=
  ⟨"chronyc",
   some [("refId", Value.str "PPS"),
         ("refIdHex", Value.str "50505300"),
         ("stratum", Value.int64 1),
         ("refTime", Value.float ⟨false, 1541793798895264285, 9⟩),
         ("systemTimeOffset", Value.float ⟨true, 1007, 9⟩),
         ("lastOffset", Value.float ⟨false, 291, 9⟩),
         ("rmsOffset", Value.float ⟨false, 239, 9⟩),
         ("frequency", Value.float ⟨true, 17957, 3⟩),
         ("freqResidual", Value.float ⟨false, 0, 3⟩),
         ("freqSkew", Value.float ⟨false, 5, 3⟩),
         ("rootDelay", Value.float ⟨false, 1000, 9⟩),
         ("rootDispersion", Value.float ⟨false, 10123, 9⟩),
         ("updateInterval", Value.float ⟨false, 160, 1⟩),
         ("leapStatus", Value.str "Normal")],
   some [("command", "tracking"), ("clockId", "chrony")]⟩

/-- The record that `TestGather` expects for the serverstats line. -/
def testServerStatsRecord : Record Decimal :=
  ⟨"chronyc",
   some [("ntpPacketsReceived", Value.int64 191),
         ("ntpPacketsDropped", Value.int64 222),
         ("commandPacketsReceived", Value.int64 183),
         ("commandPacketsDropped", Value.int64 111),
         ("clientLogRecordsDropped", Value.int64 231)],
   some [("command", "serverstats"), ("clockId", "chrony")]⟩

/-- A line in the format of `chronyc -c sources`. -/
def sourcesLine : String :=
  "^,*,GPS,0,4,377,12,0.1,0.2,0.3"

/-- The line `sourcesLine` with a stratum field that is not a number. -/
def badSourcesLine : String :=
  "^,*,GPS,x,4,377,12,0.1,0.2,0.3"

/-- The tracking line of `TestHelperProcess` with a stratum field that is not a number. -/
def badTrackingLine : String :=
  "50505300,PPS,x,1541793798.895264285,-0.000001007,0.000000291,0.000000239,-17.957,0.000,0.005,0.000001000,0.000010123,16.0,Normal"

/-- The loop of `TestHelperProcess` over the commands `args[2:]`: it prints the mock output
of `tracking` and `serverstats` and exits with status 1 on any other name. `out` is what has
been printed so far. The quoted name that `%q` prints is written here for a name without
characters that Go escapes. -/
def helperCommands : List String → String → String × Option String
  | [], out => (out, none)
  | command :: rest, out =>
    if command = "tracking" then helperCommands rest (out ++ trackingLine ++ "\n")
    else if command = "serverstats" then helperCommands rest (out ++ serverstatsLine ++ "\n")
    else (out ++ "Unknown chronyc command \"" ++ command ++ "\"\n", some "exit status 1")

/-- The executor of the tests: `fakeExecCommand` runs `TestHelperProcess` with the command
and its arguments, and the helper answers only to the command `chronyc` with the first
arguments `-c`, `-m`. The result is the combined output and the error of the exit status.
With fewer than two arguments the helper stops on an index out of range; only its failure is
kept here, not the text it prints. -/
def helperProcess (cmd : String) (args : List String) : String × Option String :=
  if cmd ≠ "chronyc" then ("command not found", some "exit status 1")
  else
    match args with
    | a0 :: a1 :: rest =>
      if a0 ≠ "-c" ∨ a1 ≠ "-m" then ("First arguments shall be -c -m\n", some "exit status 1")
      else helperCommands rest ""
    | _ => ("", some "exit status 2")

/-! ## Lemmas on the driver -/

section Lemmas

variable {F : Type} (parseFloat : String → Option F)

theorem run_of_done (fuel : Nat) (s : State F) (r : Result F)
    (h : step parseFloat s = .done r) : run parseFloat (fuel + 1) s = some r := by
  simp [run, h]

theorem run_of_next (fuel : Nat) (s s1 : State F)
    (h : step parseFloat s = .next s1) :
    run parseFloat (fuel + 1) s = run parseFloat fuel s1 := by
  simp [run, h]

/-- More fuel does not change a result. -/
theorem run_mono (n k : Nat) (s : State F) (r : Result F)
    (h : run parseFloat n s = some r) : run parseFloat (n + k) s = some r := by
  induction n generalizing s with
  | zero => simp [run] at h
  | succ n ih =>
    rw [Nat.add_right_comm]
    cases hs : step parseFloat s with
    | done r1 =>
      rw [run_of_done parseFloat n s r1 hs] at h
      rw [run_of_done parseFloat (n + k) s r1 hs]
      exact h
    | next s1 =>
      rw [run_of_next parseFloat n s s1 hs] at h
      rw [run_of_next parseFloat (n + k) s s1 hs]
      exact ih s1 h

theorem singleLine_of_single {c : String} (h : c = "tracking" ∨ c = "serverstats") :
    singleLine c = true := by
  rcases h with h | h <;> subst h <;> decide

theorem singleLine_of_list {c : String}
    (h : c = "sources" ∨ c = "sourcestats" ∨ c = "ntpdata") : singleLine c = false := by
  rcases h with h | h | h <;> subst h <;> decide

/-- A pass that selects a single-line command and parses the line with it. -/
theorem step_single_ok (c : String) (cs : List String) (l : String) (rest : List String)
    (acc : List (Record F)) (r : Ret F) (hc : singleLine c = true)
    (hd : dispatch parseFloat c (split l ',') = some r) (hok : r.err = none) :
    step parseFloat ⟨c :: cs, "", l :: rest, acc⟩ = .next ⟨cs, "", rest, acc ++ [addFields r]⟩ := by
  simp [step, process, hc, hd, hok]

/-- A well-formed line for each command of a run of single-line commands: one pass and one
record per line. -/
theorem run_single_lines (items : List (String × String × Ret F))
    (hitems : ∀ x ∈ items, singleLine x.1 = true ∧
      dispatch parseFloat x.1 (split x.2.1 ',') = some x.2.2 ∧ x.2.2.err = none)
    (cs rest : List String) (acc : List (Record F)) (k : Nat) :
    run parseFloat (items.length + k)
        ⟨items.map (fun x => x.1) ++ cs, "", items.map (fun x => x.2.1) ++ rest, acc⟩
      = run parseFloat k ⟨cs, "", rest, acc ++ items.map (fun x => addFields x.2.2)⟩ := by
  induction items generalizing acc with
  | nil => simp
  | cons x xs ih =>
    obtain ⟨h1, h2, h3⟩ := hitems x (List.mem_cons_self _ _)
    have hstep := step_single_ok parseFloat x.1 (xs.map (fun x => x.1) ++ cs) x.2.1
      (xs.map (fun x => x.2.1) ++ rest) acc x.2.2 h1 h2 h3
    have hlen : (x :: xs).length + k = (xs.length + k) + 1 := by simp; omega
    rw [hlen]
    simp only [List.map_cons, List.cons_append]
    rw [run_of_next parseFloat _ _ _ hstep, ih (fun y hy => hitems y (List.mem_cons_of_mem _ hy))]
    simp

/-- The split of a text without the separator is the text itself. -/
theorem splitChars_of_not_mem (sep : Char) (l : List Char) (h : sep ∉ l) :
    splitChars sep l = [l] := by
  induction l with
  | nil => rfl
  | cons c cs ih =>
    have hc : c ≠ sep := fun e => h (by simp [e])
    have hcs : sep ∉ cs := fun e => h (List.mem_cons_of_mem _ e)
    simp [splitChars, hc, ih hcs]

/-- A text without a newline is its own single line. -/
theorem outputLines_of_line (t : String) (h : '\n' ∉ t.data) : outputLines t = [t] := by
  have htrim : trimRight t '\n' = t := by
    unfold trimRight
    have : t.data.rdropWhile (fun c => c == '\n') = t.data := by
      rw [List.rdropWhile_eq_self_iff]
      intro hl hp
      have hmem := List.getLast_mem hl
      simp only [beq_iff_eq] at hp
      rw [hp] at hmem
      exact h hmem
    rw [this]
  rw [outputLines, htrim, split, splitChars_of_not_mem '\n' t.data h]
  rfl

/-- An extractor result without error comes from a line with the expected field count. -/
theorem tracking_ok_length (fields : List String)
    (h : (parseTrackingLine parseFloat fields).err = none) : fields.length = 14 := by
  by_contra hn
  simp [parseTrackingLine, hn] at h

/-- On a line whose field count is none of 10, 8 and 33, the extractor of each list command
returns a `fieldCountError`. -/
theorem dispatch_list_fieldCount (c : String) (fields : List String)
    (hc : c = "sources" ∨ c = "sourcestats" ∨ c = "ntpdata")
    (h10 : fields.length ≠ 10) (h8 : fields.length ≠ 8) (h33 : fields.length ≠ 33) :
    ∃ r g e, dispatch parseFloat c fields = some r ∧
      r.err = some (ParseError.fieldCountError g e) := by
  rcases hc with hc | hc | hc <;> subst hc
  · exact ⟨_, _, _, by simp [dispatch]; rfl, by simp [parseSourcesLine, h10]; exact ⟨rfl, rfl⟩⟩
  · exact ⟨_, _, _, by simp [dispatch]; rfl, by simp [parseSourceStatsLine, h8]; exact ⟨rfl, rfl⟩⟩
  · exact ⟨_, _, _, by simp [dispatch]; rfl, by simp [parseNtpData, h33]; exact ⟨rfl, rfl⟩⟩

/-- A pass that selects a list command whose extractor reports a wrong field count: the
command is dropped and the line stays. -/
theorem step_list_skip (c : String) (cs : List String) (l : String) (rest : List String)
    (acc : List (Record F)) (r : Ret F) (g e : Nat) (hc : singleLine c = false)
    (hd : dispatch parseFloat c (split l ',') = some r)
    (herr : r.err = some (ParseError.fieldCountError g e)) :
    step parseFloat ⟨c :: cs, "", l :: rest, acc⟩ = .next ⟨cs, "", l :: rest, acc⟩ := by
  simp [step, process, hc, hd, herr]

/-- A successful extractor comes from a successful conversion chain. -/
theorem finishLine_of_ok
    (x : Except FormatCause (List (String × Value F) × List (String × String)))
    (h : (finishLine x).err = none) : ∃ v, x = .ok v := by
  cases x with
  | error e => simp [finishLine] at h
  | ok v => exact ⟨v, rfl⟩

/-- The second component of a conversion chain is fixed by its continuation. -/
theorem bind_snd {ε α β γ : Type} {x : Except ε γ} {f : γ → Except ε (α × β)} {t : β}
    (h : ∀ a v, f a = .ok v → v.2 = t) : ∀ v, (x >>= f) = .ok v → v.2 = t := by
  intro v hv
  cases x with
  | error e => cases hv
  | ok a => exact h a v hv

theorem pure_snd {ε α β : Type} (a : α) (t : β) :
    ∀ v, (pure (a, t) : Except ε (α × β)) = .ok v → v.2 = t := by
  intro v hv
  cases hv
  rfl

/-- The tag-set of a tracking record. -/
theorem tracking_tags (fields : List String)
    (hok : (parseTrackingLine parseFloat fields).err = none) :
    (parseTrackingLine parseFloat fields).tags
      = some [("command", "tracking"), ("clockId", "chrony")] := by
  have hlen := tracking_ok_length parseFloat fields hok
  unfold parseTrackingLine at hok ⊢
  simp only [hlen, ne_eq, not_true_eq_false, if_false] at hok ⊢
  obtain ⟨v, hv⟩ := finishLine_of_ok _ hok
  rw [hv]
  have ht : v.2 = [("command", "tracking"), ("clockId", "chrony")] := by
    revert v
    repeat (first | exact pure_snd _ _ | refine bind_snd (fun _ => ?_))
  simp [finishLine, ht]

/-- The check after the loops returns `nil` exactly when no single-line command is left. -/
theorem remainingCheck_eq_nil_iff (cmds : List String) :
    remainingCheck cmds = Exit.nil ↔ ∀ c ∈ cmds, singleLine c = false := by
  induction cmds with
  | nil => simp [remainingCheck]
  | cons c cs ih =>
    by_cases hc : singleLine c = true
    · simp [remainingCheck, hc]
    · simp [remainingCheck, hc, ih]

/-- The check after the loops returns `nil` or the error for too little output. -/
theorem remainingCheck_cases (cmds : List String) :
    remainingCheck cmds ≠ Exit.nil → ∃ rem, remainingCheck cmds = Exit.notEnoughOutput rem := by
  induction cmds with
  | nil => simp [remainingCheck]
  | cons c cs ih =>
    by_cases hc : singleLine c = true
    · simp [remainingCheck, hc]
    · simpa [remainingCheck, hc] using ih

/-- The end of an extractor never produces a `fieldCountError`. -/
theorem finishLine_err_ne
    (x : Except FormatCause (List (String × Value F) × List (String × String))) (g e : Nat) :
    (finishLine x).err ≠ some (ParseError.fieldCountError g e) := by
  cases x with
  | error c => simp [finishLine]
  | ok v => simp [finishLine]

/-- The two branches of `parseTrackingLine`. -/
theorem tracking_cases (fields : List String) :
    (fields.length ≠ 14 ∧ parseTrackingLine parseFloat fields
        = ⟨none, none, some (ParseError.fieldCountError fields.length 14)⟩) ∨
    (fields.length = 14 ∧ ∃ x, parseTrackingLine parseFloat fields = finishLine x) := by
  by_cases h : fields.length = 14
  · refine Or.inr ⟨h, ?_⟩
    unfold parseTrackingLine
    simp only [h, ne_eq, not_true_eq_false, if_false]
    exact ⟨_, rfl⟩
  · exact Or.inl ⟨h, by simp [parseTrackingLine, h]⟩

/-- The two branches of `parseServerStatsLine`. -/
theorem serverStats_cases (fields : List String) :
    (fields.length ≠ 5 ∧ (parseServerStatsLine fields : Ret F)
        = ⟨none, none, some (ParseError.fieldCountError fields.length 5)⟩) ∨
    (fields.length = 5 ∧ ∃ x, (parseServerStatsLine fields : Ret F) = finishLine x) := by
  by_cases h : fields.length = 5
  · refine Or.inr ⟨h, ?_⟩
    unfold parseServerStatsLine
    simp only [h, ne_eq, not_true_eq_false, if_false]
    exact ⟨_, rfl⟩
  · exact Or.inl ⟨h, by simp [parseServerStatsLine, h]⟩

/-- The two branches of `parseSourcesLine`. -/
theorem sources_cases (fields : List String) :
    (fields.length ≠ 10 ∧ parseSourcesLine parseFloat fields
        = ⟨none, none, some (ParseError.fieldCountError fields.length 10)⟩) ∨
    (fields.length = 10 ∧ ∃ x, parseSourcesLine parseFloat fields = finishLine x) := by
  by_cases h : fields.length = 10
  · refine Or.inr ⟨h, ?_⟩
    unfold parseSourcesLine
    simp only [h, ne_eq, not_true_eq_false, if_false]
    exact ⟨_, rfl⟩
  · exact Or.inl ⟨h, by simp [parseSourcesLine, h]⟩

/-- The two branches of `parseSourceStatsLine`. -/
theorem sourceStats_cases (fields : List String) :
    (fields.length ≠ 8 ∧ parseSourceStatsLine parseFloat fields
        = ⟨none, none, some (ParseError.fieldCountError fields.length 8)⟩) ∨
    (fields.length = 8 ∧ ∃ x, parseSourceStatsLine parseFloat fields = finishLine x) := by
  by_cases h : fields.length = 8
  · refine Or.inr ⟨h, ?_⟩
    unfold parseSourceStatsLine
    simp only [h, ne_eq, not_true_eq_false, if_false]
    exact ⟨_, rfl⟩
  · exact Or.inl ⟨h, by simp [parseSourceStatsLine, h]⟩

/-- The two branches of `parseNtpData`. -/
theorem ntpData_cases (fields : List String) :
    (fields.length ≠ 33 ∧ parseNtpData parseFloat fields
        = ⟨none, none, some (ParseError.fieldCountError fields.length 33)⟩) ∨
    (fields.length = 33 ∧ ∃ x, parseNtpData parseFloat fields = finishLine x) := by
  by_cases h : fields.length = 33
  · refine Or.inr ⟨h, ?_⟩
    unfold parseNtpData
    simp only [h, ne_eq, not_true_eq_false, if_false]
    exact ⟨_, rfl⟩
  · exact Or.inl ⟨h, by simp [parseNtpData, h]⟩

/-- From the two branches of an extractor with expected count `n`: a `fieldCountError` exactly
on another count, and then no field-set and no tag-set. -/
theorem fieldCount_of_cases (r : Ret F) (len n : Nat)
    (h : (len ≠ n ∧ r = ⟨none, none, some (ParseError.fieldCountError len n)⟩) ∨
      (len = n ∧ ∃ x, r = finishLine x)) :
    ((∃ g e, r.err = some (ParseError.fieldCountError g e)) ↔ len ≠ n) ∧
    ((∃ g e, r.err = some (ParseError.fieldCountError g e)) → r.fields = none ∧ r.tags = none) := by
  rcases h with ⟨hne, hr⟩ | ⟨heq, x, hr⟩
  · subst hr
    exact ⟨⟨fun _ => hne, fun _ => ⟨_, _, rfl⟩⟩, fun _ => ⟨rfl, rfl⟩⟩
  · subst hr
    refine ⟨⟨?_, fun h => absurd heq h⟩, ?_⟩
    · rintro ⟨g, e, h⟩
      exact absurd h (finishLine_err_ne x g e)
    · rintro ⟨g, e, h⟩
      exact absurd h (finishLine_err_ne x g e)

theorem modes_lookup_eq_none (f : String) (h : f ∉ ["^", "=", "#", " "]) :
    modes.lookup f = none := by
  simp only [List.mem_cons, List.mem_singleton, List.not_mem_nil, or_false, not_or] at h
  rw [List.lookup_eq_none_iff]
  simp [modes, h]

theorem states_lookup_eq_none (f : String) (h : f ∉ ["*", "?", "x", "~", "+", "-", " "]) :
    states.lookup f = none := by
  simp only [List.mem_cons, List.mem_singleton, List.not_mem_nil, or_false, not_or] at h
  rw [List.lookup_eq_none_iff]
  simp [states, h]

/-- A pass with a current command whose extractor reports a `formatError` leaves every loop
variable as it was. -/
theorem step_formatError (cmds : List String) (cmd l : String) (rest : List String)
    (acc : List (Record F)) (r : Ret F) (c : FormatCause) (hcmd : cmd ≠ "")
    (hd : dispatch parseFloat cmd (split l ',') = some r)
    (herr : r.err = some (ParseError.formatError c)) :
    step parseFloat ⟨cmds, cmd, l :: rest, acc⟩ = .next ⟨cmds, cmd, l :: rest, acc⟩ := by
  simp [step, process, hcmd, hd, herr]

/-- Once the current command reports a `formatError` on the current line, no amount of fuel
ends the run. -/
theorem run_formatError (cmds : List String) (cmd l : String) (rest : List String)
    (acc : List (Record F)) (r : Ret F) (c : FormatCause) (hcmd : cmd ≠ "")
    (hd : dispatch parseFloat cmd (split l ',') = some r)
    (herr : r.err = some (ParseError.formatError c)) (fuel : Nat) :
    run parseFloat fuel ⟨cmds, cmd, l :: rest, acc⟩ = none := by
  induction fuel with
  | zero => rfl
  | succ n ih =>
    rw [run_of_next parseFloat n _ _
      (step_formatError parseFloat cmds cmd l rest acc r c hcmd hd herr)]
    exact ih

/-- Only the five known commands have an extractor; none of them is the empty string. -/
theorem ne_empty_of_dispatch (cmd : String) (fields : List String) (r : Ret F)
    (hd : dispatch parseFloat cmd fields = some r) : cmd ≠ "" := by
  intro h
  subst h
  simp [dispatch] at hd

/-- The first pass on a line for which the extractor of the first command reports a
`formatError`: the command becomes current and the line stays. -/
theorem step_select_formatError (c : String) (cs : List String) (l : String)
    (rest : List String) (acc : List (Record F)) (r : Ret F) (e : FormatCause)
    (hd : dispatch parseFloat c (split l ',') = some r)
    (herr : r.err = some (ParseError.formatError e)) :
    step parseFloat ⟨c :: cs, "", l :: rest, acc⟩
      = .next ⟨if singleLine c then cs else c :: cs, c, l :: rest, acc⟩ := by
  simp [step, process, hd, herr]

/-- From the first test of the loops: if the extractor of the first command reports a
`formatError` on the first line, no amount of fuel ends the run. -/
theorem run_select_formatError (c : String) (cs : List String) (l : String)
    (rest : List String) (acc : List (Record F)) (r : Ret F) (e : FormatCause)
    (hd : dispatch parseFloat c (split l ',') = some r)
    (herr : r.err = some (ParseError.formatError e)) (fuel : Nat) :
    run parseFloat fuel ⟨c :: cs, "", l :: rest, acc⟩ = none := by
  cases fuel with
  | zero => rfl
  | succ n =>
    rw [run_of_next parseFloat n _ _
      (step_select_formatError parseFloat c cs l rest acc r e hd herr)]
    exact run_formatError parseFloat _ c l rest acc r e
      (ne_empty_of_dispatch parseFloat c _ r hd) hd herr n

/-- Trimming on the right never reaches into a prefix that has no newline. -/
theorem rdropWhile_append_of_not_mem (b z : List Char) (hb : '\n' ∉ b) :
    ∃ y, y <+: z ∧ (b ++ z).rdropWhile (fun c => c == '\n') = b ++ y := by
  induction z using List.reverseRecOn with
  | nil =>
    refine ⟨[], List.prefix_refl _, ?_⟩
    rw [List.append_nil, List.rdropWhile_eq_self_iff]
    intro hl hp
    have hmem := List.getLast_mem hl
    simp only [beq_iff_eq] at hp
    rw [hp] at hmem
    exact hb hmem
  | append_singleton z x ih =>
    obtain ⟨y, hy, h⟩ := ih
    rw [← List.append_assoc, List.rdropWhile_concat]
    by_cases hx : (x == '\n') = true
    · exact ⟨y, hy.trans (List.prefix_append _ _), by simp [hx, h]⟩
    · exact ⟨z ++ [x], List.prefix_refl _, by simp [hx]⟩

/-- The split of a text at its first separator. -/
theorem splitChars_append_sep (sep : Char) (b y : List Char) (hb : sep ∉ b) :
    splitChars sep (b ++ sep :: y) = b :: splitChars sep y := by
  induction b with
  | nil => simp [splitChars]
  | cons c cs ih =>
    have hc : c ≠ sep := fun e => hb (by simp [e])
    have hcs : sep ∉ cs := fun e => hb (List.mem_cons_of_mem _ e)
    simp [splitChars, hc, ih hcs]

/-- The first line of a text that starts with a line `b` and a newline is `b`. -/
theorem outputLines_head (b x : String) (hb : '\n' ∉ b.data) :
    ∃ tail, outputLines (b ++ "\n" ++ x) = b :: tail := by
  obtain ⟨y, hy, h⟩ := rdropWhile_append_of_not_mem b.data ('\n' :: x.data) hb
  have hdata : (b ++ "\n" ++ x).data = b.data ++ '\n' :: x.data := by
    simp [String.data_append]
  unfold outputLines trimRight split
  rw [hdata, h]
  cases y with
  | nil =>
    rw [List.append_nil, splitChars_of_not_mem '\n' b.data hb]
    exact ⟨[], rfl⟩
  | cons c y1 =>
    have hc : c = '\n' := by
      obtain ⟨t, ht⟩ := hy
      simp only [List.cons_append, List.cons.injEq] at ht
      exact ht.1
    subst hc
    rw [splitChars_append_sep '\n' b.data y1 hb]
    exact ⟨_, rfl⟩

/-- List commands at the head of the command list are dropped one pass each on a line whose
field count is none of 10, 8 and 33. -/
theorem run_list_skips (pre : List String)
    (hpre : ∀ c ∈ pre, c = "sources" ∨ c = "sourcestats" ∨ c = "ntpdata")
    (cs : List String) (l : String) (rest : List String) (acc : List (Record F)) (k : Nat)
    (h10 : (split l ',').length ≠ 10) (h8 : (split l ',').length ≠ 8)
    (h33 : (split l ',').length ≠ 33) :
    run parseFloat (pre.length + k) ⟨pre ++ cs, "", l :: rest, acc⟩
      = run parseFloat k ⟨cs, "", l :: rest, acc⟩ := by
  induction pre with
  | nil => simp
  | cons c cs1 ih =>
    have hc := hpre c (List.mem_cons_self _ _)
    obtain ⟨r, g, e, hd, herr⟩ := dispatch_list_fieldCount parseFloat c (split l ',') hc h10 h8 h33
    have hstep := step_list_skip parseFloat c (cs1 ++ cs) l rest acc r g e
      (singleLine_of_list hc) hd herr
    have hlen : (c :: cs1).length + k = (cs1.length + k) + 1 := by simp; omega
    rw [hlen, List.cons_append, run_of_next parseFloat _ _ _ hstep]
    exact ih (fun y hy => hpre y (List.mem_cons_of_mem _ hy))

/-- A pass that selects a single-line command on a line with a field count other than 14
and 5: the call ends with the error for a wrong field count. -/
theorem step_single_fieldCount (c : String) (cs : List String) (l : String)
    (rest : List String) (acc : List (Record F))
    (hc : c = "tracking" ∨ c = "serverstats")
    (h14 : (split l ',').length ≠ 14) (h5 : (split l ',').length ≠ 5) :
    step parseFloat ⟨c :: cs, "", l :: rest, acc⟩ = .done ⟨acc, Exit.wrongFieldCount c⟩ := by
  have hs := singleLine_of_single hc
  rcases hc with hc | hc <;> subst hc
  · simp [step, process, dispatch, parseTrackingLine, h14, hs]
  · simp [step, process, dispatch, parseServerStatsLine, h5, hs]

/-- The digit characters `0` to `9` have their value and are not signs. -/
theorem digitVal_digitChar (d : Nat) (hd : d < 10) :
    digitVal (Nat.digitChar d) = some d ∧ Nat.digitChar d ≠ '+' ∧ Nat.digitChar d ≠ '-' := by
  interval_cases d <;> decide

/-- The digit loop on a string of digits below the base computes the positional value. The
digits are listed as written, most significant first. -/
theorem parseDigits_digits (b : Nat) (hb : b ≤ 10) (ds : List Nat) (hds : ∀ d ∈ ds, d < b)
    (n : Nat) :
    parseDigits b (ds.map Nat.digitChar) n
      = some (n * b ^ ds.length + Nat.ofDigits b ds.reverse) := by
  induction ds generalizing n with
  | nil => simp [parseDigits]
  | cons d ds ih =>
    have hd : d < b := hds d (List.mem_cons_self _ _)
    have hv := (digitVal_digitChar d (by omega)).1
    rw [List.map_cons, parseDigits, hv]
    simp only [hd, if_true]
    rw [ih (fun x hx => hds x (List.mem_cons_of_mem _ hx))]
    rw [List.reverse_cons, Nat.ofDigits_append, Nat.ofDigits_singleton, List.length_reverse,
      List.length_cons]
    congr 1
    ring

/-- The function `ParseInt` on a non-empty string of digits below the base, with a value that
fits into 63 bits, returns the positional value in that base. -/
theorem ParseInt_digits (b : Nat) (hb : b ≤ 10) (ds : List Nat) (hne : ds ≠ [])
    (hds : ∀ d ∈ ds, d < b) (hr : Nat.ofDigits b ds.reverse < 2 ^ 63) (bitSize : Nat)
    (hbits : bitSize = 0 ∨ bitSize = 64) :
    ParseInt (String.mk (ds.map Nat.digitChar)) b bitSize
      = some ((Nat.ofDigits b ds.reverse : Nat) : Int) := by
  cases ds with
  | nil => exact absurd rfl hne
  | cons d ds =>
    have hd : d < 10 := Nat.lt_of_lt_of_le (hds d (List.mem_cons_self _ _)) hb
    obtain ⟨_, hp, hm⟩ := digitVal_digitChar d hd
    have hpd := parseDigits_digits b hb (d :: ds) hds 0
    rw [List.map_cons] at hpd
    have hbits1 : (if bitSize = 0 then IntSize else bitSize) - 1 = 63 := by
      rcases hbits with h | h <;> simp [h, IntSize]
    simp only [ParseInt, List.map_cons, hp, hm, or_self, if_false, decide_False, hpd,
      reduceCtorEq, hbits1]
    simp only [Nat.zero_mul, Nat.zero_add]
    have hr1 : Nat.ofDigits b (ds.reverse ++ [d]) < 9223372036854775808 := by
      simpa using hr
    simp [hr1]

/-- The digit loop in base 8 rejects a string with a digit `8` or `9`. -/
theorem parseDigits_octal_bad (cs : List Char) (h : '8' ∈ cs ∨ '9' ∈ cs) (n : Nat) :
    parseDigits 8 cs n = none := by
  induction cs generalizing n with
  | nil => simp at h
  | cons c cs ih =>
    by_cases h8 : c = '8'
    · subst h8
      simp [parseDigits, show digitVal '8' = some 8 by decide]
    · by_cases h9 : c = '9'
      · subst h9
        simp [parseDigits, show digitVal '9' = some 9 by decide]
      · have hcs : '8' ∈ cs ∨ '9' ∈ cs := by
          rcases h with h | h
          · exact Or.inl ((List.mem_cons.mp h).resolve_left (fun e => h8 e.symm))
          · exact Or.inr ((List.mem_cons.mp h).resolve_left (fun e => h9 e.symm))
        rw [parseDigits]
        cases digitVal c with
        | none => rfl
        | some d =>
          by_cases hd : d < 8
          · simp [hd, ih hcs]
          · simp [hd]

/-- The function `ParseInt` in base 8 rejects a string with a digit `8` or `9`. -/
theorem ParseInt_octal_bad (s : String) (h : '8' ∈ s.data ∨ '9' ∈ s.data) (bitSize : Nat) :
    ParseInt s 8 bitSize = none := by
  unfold ParseInt
  cases hs : s.data with
  | nil => rfl
  | cons c cs =>
    rw [hs] at h
    by_cases hsign : c = '+' ∨ c = '-'
    · have hcs : '8' ∈ cs ∨ '9' ∈ cs := by
        rcases h with h | h
        · refine Or.inl ((List.mem_cons.mp h).resolve_left ?_)
          rintro rfl
          revert hsign
          decide
        · refine Or.inr ((List.mem_cons.mp h).resolve_left ?_)
          rintro rfl
          revert hsign
          decide
      simp only [hsign, if_true, parseDigits_octal_bad cs hcs 0]
      split <;> rfl
    · simp only [hsign, if_false, parseDigits_octal_bad (c :: cs) h 0]
      split <;> rfl

/-- The result of `parseSourcesLine` when every conversion succeeds. -/
theorem parseSourcesLine_ok (fields : List String) (m st stratum poll reach lastRx : Int)
    (offset rawOffset errorMargin : F)
    (hlen : fields.length = 10)
    (h0 : modes.lookup (fields.getD 0 "") = some m)
    (h1 : states.lookup (fields.getD 1 "") = some st)
    (h3 : ParseInt (fields.getD 3 "") 10 0 = some stratum)
    (h4 : ParseInt (fields.getD 4 "") 10 0 = some poll)
    (h5 : ParseInt (fields.getD 5 "") 8 0 = some reach)
    (h6 : ParseInt (fields.getD 6 "") 10 0 = some lastRx)
    (h7 : parseFloat (fields.getD 7 "") = some offset)
    (h8 : parseFloat (fields.getD 8 "") = some rawOffset)
    (h9 : parseFloat (fields.getD 9 "") = some errorMargin) :
    parseSourcesLine parseFloat fields
      = ⟨some [("clockMode", Value.int m),
               ("clockState", Value.int st),
               ("stratum", Value.int64 stratum),
               ("poll", Value.int64 poll),
               ("reach", Value.int64 reach),
               ("lastRx", Value.int64 lastRx),
               ("offset", Value.float offset),
               ("rawOffset", Value.float rawOffset),
               ("errorMargin", Value.float errorMargin)],
         some [("command", "sources"), ("clockId", fields.getD 2 "")],
         none⟩ := by
  unfold parseSourcesLine
  simp only [hlen, ne_eq, not_true_eq_false, if_false, convMode, convState, convInt, convFloat,
    h0, h1, h3, h4, h5, h6, h7, h8, h9]
  rfl

/-- A line of 10 fields whose field 5 does not convert in base 8 gets a `formatError`. -/
theorem parseSourcesLine_bad_reach (fields : List String) (hlen : fields.length = 10)
    (h5 : ParseInt (fields.getD 5 "") 8 0 = none) :
    ∃ c, parseSourcesLine parseFloat fields
      = ⟨none, none, some (ParseError.formatError c)⟩ := by
  unfold parseSourcesLine
  have h5c : convInt (fields.getD 5 "") 8 0
      = Except.error (FormatCause.numError "ParseInt" (fields.getD 5 "")) := by
    simp only [convInt, h5]
  simp only [hlen, ne_eq, not_true_eq_false, if_false, h5c]
  cases convMode (fields.getD 0 "") with
  | error e => exact ⟨e, rfl⟩
  | ok a =>
    cases convState (fields.getD 1 "") with
    | error e => exact ⟨e, rfl⟩
    | ok b =>
      cases convInt (fields.getD 3 "") 10 0 with
      | error e => exact ⟨e, rfl⟩
      | ok c =>
        cases convInt (fields.getD 4 "") 10 0 with
        | error e => exact ⟨e, rfl⟩
        | ok d => exact ⟨_, rfl⟩

/-- Inversion of `process` on a pass that goes on: the extractor ran, and the new state is
given by the type of its error. -/
theorem process_next (cmds1 : List String) (c l : String) (rest : List String)
    (acc : List (Record F)) (s1 : State F)
    (h : process parseFloat cmds1 c l rest acc = .next s1) :
    ∃ r, dispatch parseFloat c (split l ',') = some r ∧
      ((r.err = none ∧
          s1 = ⟨cmds1, if singleLine c then "" else c, rest, acc ++ [addFields r]⟩) ∨
        (∃ g e, r.err = some (ParseError.fieldCountError g e) ∧ singleLine c = false ∧
          ∃ x cs2, cmds1 = x :: cs2 ∧ s1 = ⟨cs2, "", l :: rest, acc⟩) ∨
        (∃ e, r.err = some (ParseError.formatError e) ∧ s1 = ⟨cmds1, c, l :: rest, acc⟩)) := by
  unfold process at h
  cases hd : dispatch parseFloat c (split l ',') with
  | none => simp [hd] at h
  | some r =>
    refine ⟨r, rfl, ?_⟩
    simp only [hd] at h
    cases he : r.err with
    | none =>
      simp only [he, Step.next.injEq] at h
      exact Or.inl ⟨rfl, h.symm⟩
    | some e =>
      cases e with
      | fieldCountError g e =>
        simp only [he] at h
        by_cases hs : singleLine c = true
        · simp [hs] at h
        · simp only [hs] at h
          cases cmds1 with
          | nil => simp at h
          | cons x cs2 =>
            simp only [Bool.false_eq_true, if_false, Step.next.injEq] at h
            exact Or.inr (Or.inl ⟨g, e, rfl, by simpa using hs, x, cs2, rfl, h.symm⟩)
      | formatError e =>
        simp only [he, Step.next.injEq] at h
        exact Or.inr (Or.inr ⟨e, rfl, h.symm⟩)

/-- Inversion of `process` on a pass that ends the call: no record is added. -/
theorem process_done (cmds1 : List String) (c l : String) (rest : List String)
    (acc : List (Record F)) (res : Result F)
    (h : process parseFloat cmds1 c l rest acc = .done res) : res.records = acc := by
  unfold process at h
  cases hd : dispatch parseFloat c (split l ',') with
  | none =>
    simp only [hd, Step.done.injEq] at h
    rw [← h]
  | some r =>
    simp only [hd] at h
    cases he : r.err with
    | none => simp [he] at h
    | some e =>
      cases e with
      | fieldCountError g e =>
        simp only [he] at h
        by_cases hs : singleLine c = true
        · simp only [hs, if_true, Step.done.injEq] at h
          rw [← h]
        · simp only [hs] at h
          cases cmds1 with
          | nil =>
            simp only [Bool.false_eq_true, if_false, Step.done.injEq] at h
            rw [← h]
          | cons x cs2 => simp at h
      | formatError e => simp [he] at h

/-- Inversion of `step` on a pass that goes on: there is a line, a command is current (it
was set or is taken from the head of `cmds`), and `process` went on with it. -/
theorem step_next (s s1 : State F) (h : step parseFloat s = .next s1) :
    ∃ l rest c cmds1, s.lines = l :: rest ∧
      ((s.cmd = "" ∧ ∃ cs, s.cmds = c :: cs ∧ cmds1 = if singleLine c then cs else c :: cs) ∨
        (s.cmd ≠ "" ∧ c = s.cmd ∧ cmds1 = s.cmds)) ∧
      process parseFloat cmds1 c l rest s.acc = .next s1 := by
  unfold step at h
  cases hl : s.lines with
  | nil => simp [hl] at h
  | cons l rest =>
    simp only [hl] at h
    by_cases hc : s.cmd = ""
    · simp only [hc, if_true] at h
      cases hcs : s.cmds with
      | nil => simp [hcs] at h
      | cons c cs =>
        simp only [hcs] at h
        exact ⟨l, rest, c, _, rfl, Or.inl ⟨hc, cs, rfl, rfl⟩, h⟩
    · simp only [hc, if_false] at h
      exact ⟨l, rest, s.cmd, s.cmds, rfl, Or.inr ⟨hc, rfl, rfl⟩, h⟩

/-- A pass that ends the call adds no record. -/
theorem step_done (s : State F) (res : Result F) (h : step parseFloat s = .done res) :
    res.records = s.acc := by
  unfold step at h
  cases hl : s.lines with
  | nil =>
    simp only [hl, Step.done.injEq] at h
    rw [← h]
  | cons l rest =>
    simp only [hl] at h
    by_cases hc : s.cmd = ""
    · simp only [hc, if_true] at h
      cases hcs : s.cmds with
      | nil =>
        simp only [hcs, Step.done.injEq] at h
        rw [← h]
      | cons c cs =>
        simp only [hcs] at h
        exact process_done parseFloat _ _ _ _ _ _ h
    · simp only [hc, if_false] at h
      exact process_done parseFloat _ _ _ _ _ _ h

/-- The tag-set of a serverstats record. -/
theorem serverStats_tags (fields : List String)
    (hok : (parseServerStatsLine fields : Ret F).err = none) :
    (parseServerStatsLine fields : Ret F).tags
      = some [("command", "serverstats"), ("clockId", "chrony")] := by
  have hlen : fields.length = 5 := by
    by_contra hn
    simp [parseServerStatsLine, hn] at hok
  unfold parseServerStatsLine at hok ⊢
  simp only [hlen, ne_eq, not_true_eq_false, if_false] at hok ⊢
  obtain ⟨v, hv⟩ := finishLine_of_ok _ hok
  rw [hv]
  have ht : v.2 = [("command", "serverstats"), ("clockId", "chrony")] := by
    revert v
    repeat (first | exact pure_snd _ _ | refine bind_snd (fun _ => ?_))
  simp [finishLine, ht]

/-- The tag-set of a sources record. -/
theorem sources_tags (fields : List String)
    (hok : (parseSourcesLine parseFloat fields).err = none) :
    (parseSourcesLine parseFloat fields).tags
      = some [("command", "sources"), ("clockId", fields.getD 2 "")] := by
  have hlen : fields.length = 10 := by
    by_contra hn
    simp [parseSourcesLine, hn] at hok
  unfold parseSourcesLine at hok ⊢
  simp only [hlen, ne_eq, not_true_eq_false, if_false] at hok ⊢
  obtain ⟨v, hv⟩ := finishLine_of_ok _ hok
  rw [hv]
  have ht : v.2 = [("command", "sources"), ("clockId", fields.getD 2 "")] := by
    revert v
    repeat (first | exact pure_snd _ _ | refine bind_snd (fun _ => ?_))
  simp [finishLine, ht]

/-- The tag-set of a sourcestats record. -/
theorem sourceStats_tags (fields : List String)
    (hok : (parseSourceStatsLine parseFloat fields).err = none) :
    (parseSourceStatsLine parseFloat fields).tags
      = some [("command", "sourcestats"), ("clockId", fields.getD 0 "")] := by
  have hlen : fields.length = 8 := by
    by_contra hn
    simp [parseSourceStatsLine, hn] at hok
  unfold parseSourceStatsLine at hok ⊢
  simp only [hlen, ne_eq, not_true_eq_false, if_false] at hok ⊢
  obtain ⟨v, hv⟩ := finishLine_of_ok _ hok
  rw [hv]
  have ht : v.2 = [("command", "sourcestats"), ("clockId", fields.getD 0 "")] := by
    revert v
    repeat (first | exact pure_snd _ _ | refine bind_snd (fun _ => ?_))
  simp [finishLine, ht]

/-- The tag-set of an ntpdata record. -/
theorem ntpData_tags (fields : List String)
    (hok : (parseNtpData parseFloat fields).err = none) :
    (parseNtpData parseFloat fields).tags
      = some [("command", "ntpdata"), ("clockId", fields.getD 0 ""),
          ("clockIdHex", fields.getD 1 "")] := by
  have hlen : fields.length = 33 := by
    by_contra hn
    simp [parseNtpData, hn] at hok
  unfold parseNtpData at hok ⊢
  simp only [hlen, ne_eq, not_true_eq_false, if_false] at hok ⊢
  obtain ⟨v, hv⟩ := finishLine_of_ok _ hok
  rw [hv]
  have ht : v.2 = [("command", "ntpdata"), ("clockId", fields.getD 0 ""),
      ("clockIdHex", fields.getD 1 "")] := by
    revert v
    repeat (first | exact pure_snd _ _ | refine bind_snd (fun _ => ?_))
  simp [finishLine, ht]

/-- The tag-set of a record is the one of the specification for the command whose extractor
made it. -/
theorem dispatch_tags (c : String) (fields : List String) (r : Ret F)
    (hd : dispatch parseFloat c fields = some r) (hok : r.err = none) :
    r.tags = some (specTags c fields) := by
  unfold dispatch at hd
  by_cases h1 : c = "tracking"
  · subst h1
    simp only [if_true, Option.some.injEq] at hd
    subst hd
    rw [tracking_tags parseFloat fields hok]
    rfl
  by_cases h2 : c = "serverstats"
  · subst h2
    simp only [if_true, Option.some.injEq] at hd
    rw [if_neg (by decide)] at hd
    simp only [Option.some.injEq] at hd
    subst hd
    rw [serverStats_tags fields hok]
    rfl
  by_cases h3 : c = "sources"
  · subst h3
    rw [if_neg (by decide), if_neg (by decide)] at hd
    simp only [if_true, Option.some.injEq] at hd
    subst hd
    rw [sources_tags parseFloat fields hok]
    rfl
  by_cases h4 : c = "sourcestats"
  · subst h4
    rw [if_neg (by decide), if_neg (by decide), if_neg (by decide)] at hd
    simp only [if_true, Option.some.injEq] at hd
    subst hd
    rw [sourceStats_tags parseFloat fields hok]
    rfl
  by_cases h5 : c = "ntpdata"
  · subst h5
    rw [if_neg (by decide), if_neg (by decide), if_neg (by decide), if_neg (by decide)] at hd
    simp only [if_true, Option.some.injEq] at hd
    subst hd
    rw [ntpData_tags parseFloat fields hok]
    rfl
  · simp [h1, h2, h3, h4, h5] at hd

/-- The command that `step` hands to `process` is in the command list, and so is every
command that it leaves in the list. -/
theorem selected_mem (cmds0 : List String) (s : State F) (c : String) (cmds1 : List String)
    (hcmds : ∀ x ∈ s.cmds, x ∈ cmds0) (hcmd : s.cmd = "" ∨ s.cmd ∈ cmds0)
    (hsel : (s.cmd = "" ∧ ∃ cs, s.cmds = c :: cs ∧
        cmds1 = if singleLine c then cs else c :: cs) ∨
      (s.cmd ≠ "" ∧ c = s.cmd ∧ cmds1 = s.cmds)) :
    c ∈ cmds0 ∧ ∀ x ∈ cmds1, x ∈ cmds0 := by
  rcases hsel with ⟨_, cs, hcs, h1⟩ | ⟨hne, hc, h1⟩
  · refine ⟨hcmds c (by simp [hcs]), ?_⟩
    intro x hx
    apply hcmds x
    rw [hcs]
    by_cases hs : singleLine c = true
    · simp only [hs, if_true] at h1
      subst h1
      exact List.mem_cons_of_mem _ hx
    · simp only [hs] at h1
      subst h1
      exact hx
  · subst h1
    refine ⟨?_, hcmds⟩
    rcases hcmd with h | h
    · exact absurd h hne
    · rw [hc]
      exact h

/-- Every record made within `n` passes from a state comes from an extractor of a command of
the command list on a line of the output and has the tag-set of the specification, if that
holds for the records of the state. -/
theorem recordsAfter_tags (cmds0 lines0 : List String) (n : Nat) (s : State F)
    (hacc : ∀ rec ∈ s.acc, ∃ c ∈ cmds0, ∃ l ∈ lines0, ∃ r,
      dispatch parseFloat c (split l ',') = some r ∧
      rec = ⟨"chronyc", r.fields, some (specTags c (split l ','))⟩)
    (hcmds : ∀ x ∈ s.cmds, x ∈ cmds0) (hcmd : s.cmd = "" ∨ s.cmd ∈ cmds0)
    (hlines : ∀ l ∈ s.lines, l ∈ lines0) :
    ∀ rec ∈ recordsAfter parseFloat n s, ∃ c ∈ cmds0, ∃ l ∈ lines0, ∃ r,
      dispatch parseFloat c (split l ',') = some r ∧
      rec = ⟨"chronyc", r.fields, some (specTags c (split l ','))⟩ := by
  induction n generalizing s with
  | zero => exact hacc
  | succ n ih =>
    unfold recordsAfter
    cases hstep : step parseFloat s with
    | done res =>
      simp only
      rw [step_done parseFloat s res hstep]
      exact hacc
    | next s1 =>
      simp only
      obtain ⟨l, rest, c, cmds1, hl, hsel, hp⟩ := step_next parseFloat s s1 hstep
      obtain ⟨hc0, hc1⟩ := selected_mem cmds0 s c cmds1 hcmds hcmd hsel
      have hl0 : l ∈ lines0 := hlines l (by simp [hl])
      have hrest : ∀ x ∈ rest, x ∈ lines0 := fun x hx => hlines x (by simp [hl, hx])
      obtain ⟨r, hd, hcase⟩ := process_next parseFloat cmds1 c l rest s.acc s1 hp
      rcases hcase with ⟨hok, hs1⟩ | ⟨g, e, _, _, x, cs2, hx, hs1⟩ | ⟨e, _, hs1⟩
      · subst hs1
        apply ih
        · intro rec hrec
          rcases List.mem_append.mp hrec with h | h
          · exact hacc rec h
          · rw [List.mem_singleton] at h
            refine ⟨c, hc0, l, hl0, r, hd, ?_⟩
            rw [h, addFields, dispatch_tags parseFloat c _ r hd hok]
        · exact hc1
        · by_cases hs : singleLine c = true
          · exact Or.inl (by simp [hs])
          · exact Or.inr (by simpa [hs] using hc0)
        · exact hrest
      · subst hs1
        apply ih
        · exact hacc
        · intro y hy
          exact hc1 y (by simp [hx, hy])
        · exact Or.inl rfl
        · intro y hy
          exact hlines y (by rw [hl]; exact hy)
      · subst hs1
        apply ih
        · exact hacc
        · exact hc1
        · exact Or.inr hc0
        · intro y hy
          exact hlines y (by rw [hl]; exact hy)

/-- The records of a finished call are the records made within its passes. -/
theorem run_records (n : Nat) (s : State F) (res : Result F)
    (h : run parseFloat n s = some res) : res.records = recordsAfter parseFloat n s := by
  induction n generalizing s with
  | zero => simp [run] at h
  | succ n ih =>
    unfold recordsAfter
    cases hstep : step parseFloat s with
    | done r1 =>
      rw [run_of_done parseFloat n s r1 hstep] at h
      simp only [Option.some.injEq] at h
      rw [← h]
    | next s1 =>
      rw [run_of_next parseFloat n s s1 hstep] at h
      exact ih s1 h

/-- The split of a text has at least one piece. -/
theorem splitChars_ne_nil (sep : Char) (l : List Char) : splitChars sep l ≠ [] := by
  cases l with
  | nil => simp [splitChars]
  | cons c cs =>
    unfold splitChars
    by_cases h : c = sep
    · simp [h]
    · simp only [h, if_false]
      split <;> simp

/-- An output text always has a first line. -/
theorem outputLines_cons (out : String) : ∃ l rest, outputLines out = l :: rest := by
  unfold outputLines split
  cases h : splitChars '\n' (trimRight out '\n').data with
  | nil => exact absurd h (splitChars_ne_nil _ _)
  | cons w ws => exact ⟨_, _, rfl⟩

/-- A name outside the five commands has no extractor. -/
theorem dispatch_unknown (c : String) (fields : List String)
    (hc : c ∉ ["tracking", "serverstats", "sources", "sourcestats", "ntpdata"]) :
    dispatch parseFloat c fields = none := by
  simp only [List.mem_cons, List.mem_singleton, List.not_mem_nil, or_false, not_or] at hc
  simp [dispatch, hc]

/-- A name outside the five commands is not single-line. -/
theorem singleLine_unknown (c : String)
    (hc : c ∉ ["tracking", "serverstats", "sources", "sourcestats", "ntpdata"]) :
    singleLine c = false := by
  simp only [List.mem_cons, List.mem_singleton, List.not_mem_nil, or_false, not_or] at hc
  have h : singleLineMap.lookup c = none := by
    rw [List.lookup_eq_none_iff]
    simp [singleLineMap, hc]
  simp [singleLine, h]

/-- A pass that selects a single-line command on a line with a wrong field count for it. -/
theorem step_single_wrong_count (c : String) (cs : List String) (l : String)
    (rest : List String) (acc : List (Record F))
    (hc : c = "tracking" ∨ c = "serverstats")
    (hcount : (c = "tracking" → (split l ',').length ≠ 14) ∧
      (c = "serverstats" → (split l ',').length ≠ 5)) :
    step parseFloat ⟨c :: cs, "", l :: rest, acc⟩ = .done ⟨acc, Exit.wrongFieldCount c⟩ := by
  have hs := singleLine_of_single hc
  rcases hc with hc | hc <;> subst hc
  · simp [step, process, dispatch, parseTrackingLine, hcount.1 rfl, hs]
  · simp [step, process, dispatch, parseServerStatsLine, hcount.2 rfl, hs]

/-- Only the five commands have an extractor. -/
theorem dispatch_some_mem (c : String) (fields : List String) (r : Ret F)
    (hd : dispatch parseFloat c fields = some r) :
    c ∈ ["tracking", "serverstats", "sources", "sourcestats", "ntpdata"] := by
  by_contra hc
  rw [dispatch_unknown parseFloat c fields hc] at hd
  cases hd

/-- A test by evaluation that an error is not a `formatError`. -/
theorem not_formatError_of_check (x : Option ParseError)
    (h : (match x with
      | some (ParseError.formatError _) => false
      | _ => true) = true) (e : FormatCause) :
    x ≠ some (ParseError.formatError e) := by
  intro hx
  subst hx
  simp at h

/-- The command list that `step` hands to `process` is not longer than `cmds`. -/
theorem selected_length (s : State F) (c : String) (cmds1 : List String)
    (hsel : (s.cmd = "" ∧ ∃ cs, s.cmds = c :: cs ∧
        cmds1 = if singleLine c then cs else c :: cs) ∨
      (s.cmd ≠ "" ∧ c = s.cmd ∧ cmds1 = s.cmds)) :
    cmds1.length ≤ s.cmds.length := by
  rcases hsel with ⟨_, cs, hcs, h1⟩ | ⟨_, _, h1⟩
  · rw [hcs, h1]
    by_cases hs : singleLine c = true
    · simp [hs]
    · simp [hs]
  · rw [h1]

/-- Without a `formatError` on the current line, a pass that goes on uses up a line or a
command: the number of lines plus the number of commands left goes down. -/
theorem step_next_decreases (s s1 : State F) (hstep : step parseFloat s = .next s1)
    (hnf : ∀ l ∈ s.lines, ∀ c r e, dispatch parseFloat c (split l ',') = some r →
      r.err ≠ some (ParseError.formatError e)) :
    s1.lines.length + s1.cmds.length < s.lines.length + s.cmds.length ∧
      ∀ l ∈ s1.lines, l ∈ s.lines := by
  obtain ⟨l, rest, c, cmds1, hl, hsel, hp⟩ := step_next parseFloat s s1 hstep
  have hlen := selected_length s c cmds1 hsel
  obtain ⟨r, hd, hcase⟩ := process_next parseFloat cmds1 c l rest s.acc s1 hp
  rcases hcase with ⟨_, hs1⟩ | ⟨g, e, _, _, x, cs2, hx, hs1⟩ | ⟨e, herr, _⟩
  · subst hs1
    refine ⟨?_, fun y hy => by simp [hl, hy]⟩
    simp only [hl, List.length_cons]
    omega
  · subst hs1
    refine ⟨?_, fun y hy => by rw [hl]; exact hy⟩
    rw [hx] at hlen
    simp only [hl, List.length_cons] at hlen ⊢
    omega
  · exact absurd herr (hnf l (by simp [hl]) c r e hd)

/-- Without a `formatError` on any line left, the call ends within as many passes as there
are lines and commands left, plus one. -/
theorem run_terminates (m : Nat) (s : State F) (hm : s.lines.length + s.cmds.length ≤ m)
    (hnf : ∀ l ∈ s.lines, ∀ c r e, dispatch parseFloat c (split l ',') = some r →
      r.err ≠ some (ParseError.formatError e)) :
    ∃ res, ∀ k, run parseFloat (m + 1 + k) s = some res := by
  induction m generalizing s with
  | zero =>
    cases hstep : step parseFloat s with
    | done res =>
      refine ⟨res, fun k => ?_⟩
      rw [show 0 + 1 + k = k + 1 by omega]
      exact run_of_done parseFloat k s res hstep
    | next s1 =>
      have h := (step_next_decreases parseFloat s s1 hstep hnf).1
      omega
  | succ m ih =>
    cases hstep : step parseFloat s with
    | done res =>
      refine ⟨res, fun k => ?_⟩
      rw [show m + 1 + 1 + k = (m + 1 + k) + 1 by omega]
      exact run_of_done parseFloat _ s res hstep
    | next s1 =>
      obtain ⟨hlt, hsub⟩ := step_next_decreases parseFloat s s1 hstep hnf
      obtain ⟨res, hres⟩ := ih s1 (by omega) (fun l hl => hnf l (hsub l hl))
      refine ⟨res, fun k => ?_⟩
      rw [show m + 1 + 1 + k = (m + 1 + k) + 1 by omega,
        run_of_next parseFloat _ s s1 hstep]
      exact hres k

/-- A pass that calls an extractor has a line to work on. -/
theorem invokes_lines (s : State F) (h : invokes parseFloat s = true) : 1 ≤ s.lines.length := by
  unfold invokes at h
  cases hl : s.lines with
  | nil => simp [hl] at h
  | cons l rest => simp

/-- Without a `formatError` on any line left, the extractor calls within any number of passes
are at most the lines plus the commands left. -/
theorem invocations_le (n : Nat) (s : State F)
    (hnf : ∀ l ∈ s.lines, ∀ c r e, dispatch parseFloat c (split l ',') = some r →
      r.err ≠ some (ParseError.formatError e)) :
    invocations parseFloat n s ≤ s.lines.length + s.cmds.length := by
  induction n generalizing s with
  | zero => simp [invocations]
  | succ n ih =>
    unfold invocations
    have h1 : (if invokes parseFloat s = true then 1 else 0) ≤ 1 := by
      split <;> omega
    cases hstep : step parseFloat s with
    | done res =>
      simp only
      by_cases hi : invokes parseFloat s = true
      · have := invokes_lines parseFloat s hi
        simp only [hi, if_true]
        omega
      · simp [hi]
    | next s1 =>
      simp only
      obtain ⟨hlt, hsub⟩ := step_next_decreases parseFloat s s1 hstep hnf
      have h2 := ih s1 (fun l hl => hnf l (hsub l hl))
      omega

/-- The loop over the commands left never ends in the panic. -/
theorem remainingCheck_ne_panic (cmds : List String) :
    remainingCheck cmds ≠ Exit.slicePanic := by
  induction cmds with
  | nil => simp [remainingCheck]
  | cons c cs ih =>
    by_cases hc : singleLine c = true
    · simp [remainingCheck, hc]
    · simpa [remainingCheck, hc] using ih

/-- The statements after the loops never end in the panic. -/
theorem finish_ne_panic (cmds : List String) (cmd : String) (lines : List String) :
    finish cmds cmd lines ≠ Exit.slicePanic := by
  unfold finish
  split
  · simp
  · split
    · exact remainingCheck_ne_panic cmds
    · simp

/-- The panic of `process` needs an empty command list under a command that is not
single-line. -/
theorem process_panic (cmds1 : List String) (c l : String) (rest : List String)
    (acc : List (Record F)) (res : Result F)
    (h : process parseFloat cmds1 c l rest acc = .done res)
    (hp : res.exit = Exit.slicePanic) : cmds1 = [] ∧ singleLine c = false := by
  unfold process at h
  cases hd : dispatch parseFloat c (split l ',') with
  | none =>
    simp only [hd, Step.done.injEq] at h
    rw [← h] at hp
    cases hp
  | some r =>
    simp only [hd] at h
    cases he : r.err with
    | none => simp [he] at h
    | some e =>
      cases e with
      | fieldCountError g e =>
        simp only [he] at h
        by_cases hs : singleLine c = true
        · simp only [hs, if_true, Step.done.injEq] at h
          rw [← h] at hp
          cases hp
        · simp only [hs] at h
          cases cmds1 with
          | nil => exact ⟨rfl, by simpa using hs⟩
          | cons x cs2 => simp at h
      | formatError e => simp [he] at h

/-- The invariant of the loops: a current command that is not single-line is the head of
`cmds`. A pass keeps it. -/
theorem step_next_head (s s1 : State F) (hstep : step parseFloat s = .next s1)
    (hinv : s.cmd ≠ "" → singleLine s.cmd = false → ∃ cs, s.cmds = s.cmd :: cs) :
    s1.cmd ≠ "" → singleLine s1.cmd = false → ∃ cs, s1.cmds = s1.cmd :: cs := by
  obtain ⟨l, rest, c, cmds1, hl, hsel, hp⟩ := step_next parseFloat s s1 hstep
  have hsel1 : singleLine c = false → ∃ cs, cmds1 = c :: cs := by
    intro hs
    rcases hsel with ⟨_, cs, _, h1⟩ | ⟨hne, hc, h1⟩
    · exact ⟨cs, by simp [h1, hs]⟩
    · subst hc h1
      exact hinv hne hs
  obtain ⟨r, _, hcase⟩ := process_next parseFloat cmds1 c l rest s.acc s1 hp
  rcases hcase with ⟨_, hs1⟩ | ⟨g, e, _, _, x, cs2, _, hs1⟩ | ⟨e, _, hs1⟩
  · subst hs1
    intro hne hs
    by_cases hc : singleLine c = true
    · simp [hc] at hne
    · simp only [hc] at hne hs ⊢
      exact hsel1 (by simpa using hc)
  · subst hs1
    intro hne
    exact absurd rfl hne
  · subst hs1
    intro _ hs
    exact hsel1 hs

/-- Under the invariant a pass does not end in the panic. -/
theorem step_done_ne_panic (s : State F) (res : Result F)
    (hstep : step parseFloat s = .done res)
    (hinv : s.cmd ≠ "" → singleLine s.cmd = false → ∃ cs, s.cmds = s.cmd :: cs) :
    res.exit ≠ Exit.slicePanic := by
  intro hp
  unfold step at hstep
  cases hl : s.lines with
  | nil =>
    simp only [hl, Step.done.injEq] at hstep
    rw [← hstep] at hp
    exact finish_ne_panic _ _ _ hp
  | cons l rest =>
    simp only [hl] at hstep
    by_cases hc : s.cmd = ""
    · simp only [hc, if_true] at hstep
      cases hcs : s.cmds with
      | nil =>
        simp only [hcs, Step.done.injEq] at hstep
        rw [← hstep] at hp
        exact finish_ne_panic _ _ _ hp
      | cons c cs =>
        simp only [hcs] at hstep
        obtain ⟨h1, h2⟩ := process_panic parseFloat _ _ _ _ _ _ hstep hp
        simp [h2] at h1
    · simp only [hc, if_false] at hstep
      obtain ⟨h1, h2⟩ := process_panic parseFloat _ _ _ _ _ _ hstep hp
      obtain ⟨cs, hcs⟩ := hinv hc h2
      rw [h1] at hcs
      cases hcs

/-- The invariant holds in every state that the loops reach. -/
theorem stateAfter_head (n : Nat) (s s1 : State F)
    (hinv : s.cmd ≠ "" → singleLine s.cmd = false → ∃ cs, s.cmds = s.cmd :: cs)
    (h : stateAfter parseFloat n s = some s1) :
    s1.cmd ≠ "" → singleLine s1.cmd = false → ∃ cs, s1.cmds = s1.cmd :: cs := by
  induction n generalizing s with
  | zero =>
    simp only [stateAfter, Option.some.injEq] at h
    subst h
    exact hinv
  | succ n ih =>
    unfold stateAfter at h
    cases hstep : step parseFloat s with
    | done res => simp [hstep] at h
    | next s2 =>
      simp only [hstep] at h
      exact ih s2 (step_next_head parseFloat s s2 hstep hinv) h

/-- Under the invariant a run does not end in the panic. -/
theorem run_ne_panic (n : Nat) (s : State F) (res : Result F)
    (hinv : s.cmd ≠ "" → singleLine s.cmd = false → ∃ cs, s.cmds = s.cmd :: cs)
    (h : run parseFloat n s = some res) : res.exit ≠ Exit.slicePanic := by
  induction n generalizing s with
  | zero => simp [run] at h
  | succ n ih =>
    cases hstep : step parseFloat s with
    | done r1 =>
      rw [run_of_done parseFloat n s r1 hstep] at h
      simp only [Option.some.injEq] at h
      subst h
      exact step_done_ne_panic parseFloat s r1 hstep hinv
    | next s1 =>
      rw [run_of_next parseFloat n s s1 hstep] at h
      exact ih s1 (step_next_head parseFloat s s1 hstep hinv) h

/-- A list dropped to a non-empty rest: its head is the element at that index and its tail is
the list dropped by one more. -/
theorem drop_eq_cons {α : Type} (xs : List α) (n : Nat) (x : α) (rest : List α)
    (h : xs.drop n = x :: rest) : xs[n]? = some x ∧ xs.drop (n + 1) = rest := by
  induction xs generalizing n with
  | nil => simp at h
  | cons y ys ih =>
    cases n with
    | zero =>
      simp only [List.drop_zero, List.cons.injEq] at h
      simp [h.1, h.2]
    | succ n =>
      simp only [List.drop_succ_cons] at h
      simpa using ih n h

/-- Where the command that `step` hands to `process` stands in the command list: if `cmds` is
the command list from position `p` on, the command list handed on starts at `p` or `p + 1`, and
the command is the one at position `p`, moved past if it is single-line; or else the command is
a single-line command that was current already, which happens only after a `formatError`. -/
theorem selected_position (cmds0 : List String) (s : State F) (p : Nat) (c l : String)
    (cmds1 rest : List String)
    (hc : s.cmds = cmds0.drop p) (hls : s.lines = l :: rest)
    (hcurS : s.cmd ≠ "" → singleLine s.cmd = true → ∀ l1 rest1 r, s.lines = l1 :: rest1 →
      dispatch parseFloat s.cmd (split l1 ',') = some r → r.err ≠ none)
    (hcurL : s.cmd ≠ "" → singleLine s.cmd = false → cmds0[p]? = some s.cmd)
    (hsel : (s.cmd = "" ∧ ∃ cs, s.cmds = c :: cs ∧
        cmds1 = if singleLine c then cs else c :: cs) ∨
      (s.cmd ≠ "" ∧ c = s.cmd ∧ cmds1 = s.cmds)) :
    ∃ p1, cmds1 = cmds0.drop p1 ∧ p ≤ p1 ∧
      ((cmds0[p]? = some c ∧ (singleLine c = true → p1 = p + 1) ∧
          (singleLine c = false → p1 = p)) ∨
        (singleLine c = true ∧ p1 = p ∧
          ∀ r, dispatch parseFloat c (split l ',') = some r → r.err ≠ none)) := by
  rcases hsel with ⟨_, cs, hcs, h1⟩ | ⟨hne, hceq, h1⟩
  · rw [hc] at hcs
    obtain ⟨hget, hdrop⟩ := drop_eq_cons cmds0 p c cs hcs
    by_cases hs : singleLine c = true
    · refine ⟨p + 1, ?_, Nat.le_succ p, Or.inl ⟨hget, fun _ => rfl, fun h => ?_⟩⟩
      · simp only [hs, if_true] at h1
        rw [h1, hdrop]
      · rw [hs] at h
        cases h
    · refine ⟨p, ?_, le_refl p, Or.inl ⟨hget, fun h => absurd h hs, fun _ => rfl⟩⟩
      simp only [hs] at h1
      rw [h1]
      exact hcs.symm
  · subst hceq
    by_cases hs : singleLine s.cmd = true
    · refine ⟨p, ?_, le_refl p, Or.inr ⟨hs, rfl, fun r hd => hcurS hne hs l rest r hls hd⟩⟩
      rw [h1, hc]
    · have hs1 : singleLine s.cmd = false := by simpa using hs
      refine ⟨p, ?_, le_refl p, Or.inl ⟨hcurL hne hs1, fun h => absurd h hs, fun _ => rfl⟩⟩
      rw [h1, hc]

/-- The records made within `n` passes from a state have a trace: one entry per record with
the index of its line, the position of its command in the command list and the name of the
command. If the records of the state have such a trace, with lines before the current one and
commands up to the current position (single-line commands strictly before it), in increasing
order, then so have the records made within `n` passes. -/
theorem recordsAfter_trace (cmds0 lines0 : List String) (n : Nat) (s : State F) (p q : Nat)
    (tr : List (Nat × Nat × String))
    (hc : s.cmds = cmds0.drop p) (hl : s.lines = lines0.drop q)
    (hcurS : s.cmd ≠ "" → singleLine s.cmd = true → ∀ l1 rest1 r, s.lines = l1 :: rest1 →
      dispatch parseFloat s.cmd (split l1 ',') = some r → r.err ≠ none)
    (hcurL : s.cmd ≠ "" → singleLine s.cmd = false → cmds0[p]? = some s.cmd)
    (htr : List.Forall₂ (fun t rec => ∃ l r, lines0[t.1]? = some l ∧
      dispatch parseFloat t.2.2 (split l ',') = some r ∧ r.err = none ∧
      rec = ⟨"chronyc", r.fields, some (specTags t.2.2 (split l ','))⟩) tr s.acc)
    (hb : ∀ t ∈ tr, cmds0[t.2.1]? = some t.2.2 ∧ t.1 < q ∧ t.2.1 ≤ p ∧
      (singleLine t.2.2 = true → t.2.1 < p))
    (hpw : tr.Pairwise (fun a b => a.1 < b.1 ∧ a.2.1 ≤ b.2.1 ∧
      (singleLine a.2.2 = true → a.2.1 < b.2.1))) :
    ∃ tr1 : List (Nat × Nat × String),
      List.Forall₂ (fun t rec => ∃ l r, lines0[t.1]? = some l ∧
        dispatch parseFloat t.2.2 (split l ',') = some r ∧ r.err = none ∧
        rec = ⟨"chronyc", r.fields, some (specTags t.2.2 (split l ','))⟩) tr1
        (recordsAfter parseFloat n s) ∧
      (∀ t ∈ tr1, cmds0[t.2.1]? = some t.2.2) ∧
      tr1.Pairwise (fun a b => a.1 < b.1 ∧ a.2.1 ≤ b.2.1 ∧
        (singleLine a.2.2 = true → a.2.1 < b.2.1)) := by
  induction n generalizing s p q tr with
  | zero => exact ⟨tr, htr, fun t ht => (hb t ht).1, hpw⟩
  | succ n ih =>
    unfold recordsAfter
    cases hstep : step parseFloat s with
    | done res =>
      simp only
      rw [step_done parseFloat s res hstep]
      exact ⟨tr, htr, fun t ht => (hb t ht).1, hpw⟩
    | next s1 =>
      simp only
      obtain ⟨l, rest, c, cmds1, hls, hsel, hp⟩ := step_next parseFloat s s1 hstep
      obtain ⟨p1, hc1, hpp1, hpos⟩ :=
        selected_position parseFloat cmds0 s p c l cmds1 rest hc hls hcurS hcurL hsel
      have hlq : lines0.drop q = l :: rest := by rw [← hl, hls]
      obtain ⟨hget, hdrop⟩ := drop_eq_cons lines0 q l rest hlq
      obtain ⟨r, hd, hcase⟩ := process_next parseFloat cmds1 c l rest s.acc s1 hp
      rcases hcase with ⟨hok, hs1⟩ | ⟨g, e, _, hns, x, cs2, hx, hs1⟩ | ⟨e, herr, hs1⟩
      · -- the line is parsed: one more record, one line on
        have hpc : cmds0[p]? = some c ∧ (singleLine c = true → p1 = p + 1) ∧
            (singleLine c = false → p1 = p) := by
          rcases hpos with h | ⟨_, _, h⟩
          · exact h
          · exact absurd hok (h r hd)
        subst hs1
        apply ih ⟨cmds1, if singleLine c then "" else c, rest, s.acc ++ [addFields r]⟩
          p1 (q + 1) (tr ++ [(q, p, c)])
        · exact hc1
        · exact hdrop.symm
        · intro hne hs
          by_cases hsc : singleLine c = true
          · simp [hsc] at hne
          · simp only [hsc] at hs
            exact absurd hs hsc
        · intro hne hs
          by_cases hsc : singleLine c = true
          · simp [hsc] at hne
          · simp only [hsc]
            rw [hpc.2.2 (by simpa using hsc)]
            exact hpc.1
        · refine List.rel_append htr (List.Forall₂.cons ⟨l, r, hget, hd, hok, ?_⟩ List.Forall₂.nil)
          rw [addFields, dispatch_tags parseFloat c _ r hd hok]
        · intro t ht
          rcases List.mem_append.mp ht with h | h
          · obtain ⟨h1, h2, h3, h4⟩ := hb t h
            exact ⟨h1, by omega, by omega, fun hs => by have := h4 hs; omega⟩
          · rw [List.mem_singleton] at h
            subst h
            refine ⟨hpc.1, ?_, hpp1, ?_⟩
            · show q < q + 1
              omega
            · intro hs
              show p < p1
              have := hpc.2.1 hs
              omega
        · rw [List.pairwise_append]
          refine ⟨hpw, List.pairwise_singleton _ _, ?_⟩
          intro a ha b hb1
          rw [List.mem_singleton] at hb1
          subst hb1
          obtain ⟨_, h2, h3, h4⟩ := hb a ha
          exact ⟨h2, h3, h4⟩
      · -- a list command with a wrong field count: one command on, the line stays
        subst hs1
        rw [hx] at hc1
        obtain ⟨_, hdropc⟩ := drop_eq_cons cmds0 p1 x cs2 hc1.symm
        apply ih ⟨cs2, "", l :: rest, s.acc⟩ (p1 + 1) q tr
        · exact hdropc.symm
        · exact hlq.symm
        · intro hne
          exact absurd rfl hne
        · intro hne
          exact absurd rfl hne
        · exact htr
        · intro t ht
          obtain ⟨h1, h2, h3, h4⟩ := hb t ht
          exact ⟨h1, h2, by omega, fun hs => by have := h4 hs; omega⟩
        · exact hpw
      · -- a format error: nothing moves
        subst hs1
        apply ih ⟨cmds1, c, l :: rest, s.acc⟩ p1 q tr
        · exact hc1
        · exact hlq.symm
        · intro _ _ l1 rest1 r1 hl1 hd1
          simp only [List.cons.injEq] at hl1
          rw [← hl1.1, hd] at hd1
          simp only [Option.some.injEq] at hd1
          rw [← hd1, herr]
          simp
        · intro _ hs
          rcases hpos with ⟨h1, _, h3⟩ | ⟨h1, _, _⟩
          · rw [h3 hs]
            exact h1
          · rw [hs] at h1
            cases h1
        · exact htr
        · intro t ht
          obtain ⟨h1, h2, h3, h4⟩ := hb t ht
          exact ⟨h1, h2, by omega, fun hs => by have := h4 hs; omega⟩
        · exact hpw

/-- In a list without duplicates an element stands at one position only. -/
theorem indexOf_eq_of_getElem (cmds : List String) (hnodup : cmds.Nodup) (j : Nat) (c : String)
    (h : cmds[j]? = some c) : cmds.indexOf c = j := by
  obtain ⟨hj, hc⟩ := List.getElem?_eq_some.mp h
  rw [← hc]
  exact List.indexOf_getElem hnodup j hj

/-- A property of all elements of the first list can be added to a relation between two
lists. -/
theorem forall₂_and_left {α β : Type} {R : α → β → Prop} {P : α → Prop} {l1 : List α}
    {l2 : List β} (h : List.Forall₂ R l1 l2) (hP : ∀ a ∈ l1, P a) :
    List.Forall₂ (fun a b => R a b ∧ P a) l1 l2 := by
  induction h with
  | nil => exact List.Forall₂.nil
  | cons h1 _ ih =>
    exact List.Forall₂.cons ⟨h1, hP _ (List.mem_cons_self _ _)⟩
      (ih (fun a ha => hP a (List.mem_cons_of_mem _ ha)))

end Lemmas

/-! ## Sequencing of single-line commands -/

section Claims

variable {F : Type} (parseFloat : String → Option F)

/-- C1. For a command list of single-line commands (`tracking`, `serverstats`) and an output
text whose lines are, in order, one well-formed line per command, `parseChronycOutput` returns
`nil` and has made exactly one `AddFields` call per command, in order, each with the name
`chronyc` and the field-set and tag-set that the extractor of the command returns for the
line. Each element of `items` is a command, its line and the results of its extractor on the
line; the statement holds with or without duplicates in the command list. -/
theorem parse_single_line_sequence (items : List (String × String × Ret F)) (out : String)
    (hitems : ∀ x ∈ items, (x.1 = "tracking" ∨ x.1 = "serverstats") ∧
      dispatch parseFloat x.1 (split x.2.1 ',') = some x.2.2 ∧ x.2.2.err = none)
    (hout : outputLines out = items.map (fun x => x.2.1)) (k : Nat) :
    parseChronycOutput parseFloat (items.length + 1 + k) (items.map (fun x => x.1)) out
      = some ⟨items.map (fun x => (⟨"chronyc", x.2.2.fields, x.2.2.tags⟩ : Record F)),
          Exit.nil⟩ := by
  have h := run_single_lines parseFloat items
    (fun x hx => ⟨singleLine_of_single (hitems x hx).1, (hitems x hx).2⟩) [] [] [] (1 + k)
  simp only [List.append_nil, List.nil_append] at h
  rw [parseChronycOutput, initState, hout, Nat.add_assoc, h, Nat.add_comm 1 k]
  rw [run_of_done parseFloat k _ ⟨items.map (fun x => addFields x.2.2), Exit.nil⟩]
  · rfl
  · simp [step, finish, remainingCheck]

/-- C1, on the data of `TestGather`: two records, tagged `tracking` and `serverstats`. -/
theorem parse_single_line_sequence_witness :
    parseChronycOutput parseDecimal 3 ["tracking", "serverstats"] testOutput
      = some ⟨[testTrackingRecord, testServerStatsRecord], Exit.nil⟩ :=
  parse_single_line_sequence parseDecimal
    [("tracking", trackingLine, parseTrackingLine parseDecimal (split trackingLine ',')),
     ("serverstats", serverstatsLine, parseServerStatsLine (split serverstatsLine ','))]
    testOutput (by decide) (by decide) 0

/-- C2. Re-synchronisation: for a list command `L` (`sources`, `sourcestats`, `ntpdata`) and a
well-formed tracking line `t` (a text without newline), `parseChronycOutput` on the command
list `[L, "tracking"]` and the output `t` returns `nil` after exactly one `AddFields` call, the
one with the results of `parseTrackingLine` on `t`, whose tag-set names the command
`tracking`: no record of `L` is emitted. -/
theorem resync_list_then_tracking (L t : String) (k : Nat)
    (hL : L = "sources" ∨ L = "sourcestats" ∨ L = "ntpdata")
    (hline : '\n' ∉ t.data)
    (hok : (parseTrackingLine parseFloat (split t ',')).err = none) :
    parseChronycOutput parseFloat (3 + k) [L, "tracking"] t
        = some ⟨[⟨"chronyc", (parseTrackingLine parseFloat (split t ',')).fields,
                  (parseTrackingLine parseFloat (split t ',')).tags⟩], Exit.nil⟩ ∧
      (parseTrackingLine parseFloat (split t ',')).tags
        = some [("command", "tracking"), ("clockId", "chrony")] := by
  have hlen := tracking_ok_length parseFloat _ hok
  obtain ⟨r, g, e, hd, herr⟩ := dispatch_list_fieldCount parseFloat L (split t ',') hL
    (by omega) (by omega) (by omega)
  have h1 := step_list_skip parseFloat L ["tracking"] t [] [] r g e (singleLine_of_list hL) hd herr
  have h2 := step_single_ok parseFloat "tracking" [] t [] []
    (parseTrackingLine parseFloat (split t ',')) (by decide) (by simp [dispatch]) hok
  constructor
  · rw [parseChronycOutput, initState, outputLines_of_line t hline,
      show 3 + k = (k + 1) + 1 + 1 by omega,
      run_of_next parseFloat _ _ _ h1, run_of_next parseFloat _ _ _ h2]
    rw [run_of_done parseFloat k _
      ⟨[addFields (parseTrackingLine parseFloat (split t ','))], Exit.nil⟩]
    · rfl
    · simp [step, finish, remainingCheck]
  · exact tracking_tags parseFloat _ hok

/-- C2, on the tracking line of `TestGather` after the list command `sources`. -/
theorem resync_list_then_tracking_witness :
    parseChronycOutput parseDecimal 3 ["sources", "tracking"] trackingLine
      = some ⟨[testTrackingRecord], Exit.nil⟩ :=
  (resync_list_then_tracking parseDecimal "sources" trackingLine 0 (Or.inl rfl)
    (by decide) (by decide)).1

/-- C7. Excess output: for a command list of `n` single-line commands and an output text
whose lines (as `parseChronycOutput` splits them) are `n` well-formed lines for those commands
in order followed by at least one more line, `parseChronycOutput` makes exactly the `n`
`AddFields` calls for the first `n` lines and then returns the error "Commands done, but there
is more output" with the lines that are left. The statement holds with or without duplicates
in the command list. -/
theorem excess_output (items : List (String × String × Ret F)) (extra : List String)
    (out : String) (k : Nat)
    (hitems : ∀ x ∈ items, (x.1 = "tracking" ∨ x.1 = "serverstats") ∧
      dispatch parseFloat x.1 (split x.2.1 ',') = some x.2.2 ∧ x.2.2.err = none)
    (hextra : extra ≠ [])
    (hout : outputLines out = items.map (fun x => x.2.1) ++ extra) :
    parseChronycOutput parseFloat (items.length + 1 + k) (items.map (fun x => x.1)) out
      = some ⟨items.map (fun x => (⟨"chronyc", x.2.2.fields, x.2.2.tags⟩ : Record F)),
          Exit.moreOutput extra⟩ := by
  have h := run_single_lines parseFloat items
    (fun x hx => ⟨singleLine_of_single (hitems x hx).1, (hitems x hx).2⟩) [] extra [] (1 + k)
  simp only [List.append_nil, List.nil_append] at h
  rw [parseChronycOutput, initState, hout, Nat.add_assoc, h, Nat.add_comm 1 k]
  rw [run_of_done parseFloat k _
    ⟨items.map (fun x => addFields x.2.2), Exit.moreOutput extra⟩]
  · rfl
  · cases extra with
    | nil => exact absurd rfl hextra
    | cons e es => simp [step, finish]

/-- C7, on `["serverstats"]` with the serverstats line of `TestGather` and one more line. -/
theorem excess_output_witness :
    parseChronycOutput parseDecimal 2 ["serverstats"] (serverstatsLine ++ "\nextra\n")
      = some ⟨[testServerStatsRecord], Exit.moreOutput ["extra"]⟩ :=
  excess_output parseDecimal
    [("serverstats", serverstatsLine, parseServerStatsLine (split serverstatsLine ','))]
    ["extra"] (serverstatsLine ++ "\nextra\n") 0 (by decide) (by decide) (by decide)

/-- C8. When the lines are used up (the loop `Lines` ends on its test), the call returns `nil`
exactly when no single-line command is left in `cmds`, and the error "Not enough output for
remaining commands" otherwise; the records made so far are kept. For a well-formed tracking
line `t`, the commands `["tracking", "serverstats"]` with output `t` give the tracking record
and that error, and `["tracking", "sources", "sourcestats"]` with output `t` give the tracking
record and `nil`. -/
theorem terminal_condition (s : State F) (t : String) (k : Nat)
    (hs : s.lines = [])
    (hline : '\n' ∉ t.data)
    (hok : (parseTrackingLine parseFloat (split t ',')).err = none) :
    (∃ e, run parseFloat (1 + k) s = some ⟨s.acc, e⟩ ∧
      (e = Exit.nil ↔ ∀ c ∈ s.cmds, singleLine c = false) ∧
      (e ≠ Exit.nil → ∃ rem, e = Exit.notEnoughOutput rem)) ∧
    parseChronycOutput parseFloat (2 + k) ["tracking", "serverstats"] t
      = some ⟨[⟨"chronyc", (parseTrackingLine parseFloat (split t ',')).fields,
                (parseTrackingLine parseFloat (split t ',')).tags⟩],
          Exit.notEnoughOutput ["serverstats"]⟩ ∧
    parseChronycOutput parseFloat (2 + k) ["tracking", "sources", "sourcestats"] t
      = some ⟨[⟨"chronyc", (parseTrackingLine parseFloat (split t ',')).fields,
                (parseTrackingLine parseFloat (split t ',')).tags⟩], Exit.nil⟩ := by
  refine ⟨⟨remainingCheck s.cmds, ?_, ?_, ?_⟩, ?_, ?_⟩
  · rw [Nat.add_comm 1 k, run_of_done parseFloat k s ⟨s.acc, remainingCheck s.cmds⟩]
    simp [step, hs, finish]
  · exact remainingCheck_eq_nil_iff s.cmds
  · exact remainingCheck_cases s.cmds
  · have h2 := step_single_ok parseFloat "tracking" ["serverstats"] t [] []
      (parseTrackingLine parseFloat (split t ',')) (by decide) (by simp [dispatch]) hok
    rw [parseChronycOutput, initState, outputLines_of_line t hline,
      show 2 + k = k + 1 + 1 by omega, run_of_next parseFloat _ _ _ h2]
    rw [run_of_done parseFloat k _
      ⟨[addFields (parseTrackingLine parseFloat (split t ','))],
        Exit.notEnoughOutput ["serverstats"]⟩]
    · rfl
    · simp [step, finish, remainingCheck]
      decide
  · have h2 := step_single_ok parseFloat "tracking" ["sources", "sourcestats"] t [] []
      (parseTrackingLine parseFloat (split t ',')) (by decide) (by simp [dispatch]) hok
    rw [parseChronycOutput, initState, outputLines_of_line t hline,
      show 2 + k = k + 1 + 1 by omega, run_of_next parseFloat _ _ _ h2]
    rw [run_of_done parseFloat k _
      ⟨[addFields (parseTrackingLine parseFloat (split t ','))], Exit.nil⟩]
    · rfl
    · simp [step, finish, remainingCheck]
      decide

/-- C8, on a state whose lines are used up while `serverstats` is left, and on the tracking
line of `TestGather`. -/
theorem terminal_condition_witness :
    (run parseDecimal 1 ⟨["sources", "serverstats"], "sources", [], [testTrackingRecord]⟩
      = some ⟨[testTrackingRecord], Exit.notEnoughOutput ["serverstats"]⟩) ∧
    parseChronycOutput parseDecimal 2 ["tracking", "serverstats"] trackingLine
      = some ⟨[testTrackingRecord], Exit.notEnoughOutput ["serverstats"]⟩ ∧
    parseChronycOutput parseDecimal 2 ["tracking", "sources", "sourcestats"] trackingLine
      = some ⟨[testTrackingRecord], Exit.nil⟩ :=
  have h := terminal_condition parseDecimal
    ⟨["sources", "serverstats"], "sources", [], [testTrackingRecord]⟩ trackingLine 0 rfl
    (by decide) (by decide)
  ⟨by decide, h.2⟩

/-- C3. Each of the five extractors returns a `fieldCountError` if and only if the number of
fields differs from its expected count (14 for tracking, 5 for serverstats, 10 for sources,
8 for sourcestats, 33 for ntpdata), and next to a `fieldCountError` the field-set and the
tag-set are both nil. -/
theorem fieldCountError_iff_wrong_count (fields : List String) :
    (((∃ g e, (parseTrackingLine parseFloat fields).err
          = some (ParseError.fieldCountError g e)) ↔ fields.length ≠ 14) ∧
      ((∃ g e, (parseServerStatsLine fields : Ret F).err
          = some (ParseError.fieldCountError g e)) ↔ fields.length ≠ 5) ∧
      ((∃ g e, (parseSourcesLine parseFloat fields).err
          = some (ParseError.fieldCountError g e)) ↔ fields.length ≠ 10) ∧
      ((∃ g e, (parseSourceStatsLine parseFloat fields).err
          = some (ParseError.fieldCountError g e)) ↔ fields.length ≠ 8) ∧
      ((∃ g e, (parseNtpData parseFloat fields).err
          = some (ParseError.fieldCountError g e)) ↔ fields.length ≠ 33)) ∧
    ∀ r ∈ [parseTrackingLine parseFloat fields, parseServerStatsLine fields,
        parseSourcesLine parseFloat fields, parseSourceStatsLine parseFloat fields,
        parseNtpData parseFloat fields],
      (∃ g e, r.err = some (ParseError.fieldCountError g e)) → r.fields = none ∧ r.tags = none := by
  have h1 := fieldCount_of_cases _ _ _ (tracking_cases parseFloat fields)
  have h2 := fieldCount_of_cases _ _ _ (serverStats_cases (F := F) fields)
  have h3 := fieldCount_of_cases _ _ _ (sources_cases parseFloat fields)
  have h4 := fieldCount_of_cases _ _ _ (sourceStats_cases parseFloat fields)
  have h5 := fieldCount_of_cases _ _ _ (ntpData_cases parseFloat fields)
  refine ⟨⟨h1.1, h2.1, h3.1, h4.1, h5.1⟩, ?_⟩
  intro r hr
  simp only [List.mem_cons, List.mem_singleton, List.not_mem_nil, or_false] at hr
  rcases hr with rfl | rfl | rfl | rfl | rfl
  · exact h1.2
  · exact h2.2
  · exact h3.2
  · exact h4.2
  · exact h5.2

/-- C10. For a list of 10 fields whose fields 3 to 9 convert, `parseSourcesLine` decodes
field 0 by the table `^`:0, `=`:1, `#`:2, blank:-1 into `clockMode` and field 1 by the table
`*`:0, `?`:1, `x`:2, `~`:3, `+`:4, `-`:5, blank:-1 into `clockState`; and when field 0 or
field 1 is outside its table, it returns a `formatError` with nil field-set and nil tag-set. -/
theorem sources_enum_decode (fields : List String) (stratum poll reach lastRx : Int)
    (offset rawOffset errorMargin : F)
    (hlen : fields.length = 10)
    (h3 : ParseInt (fields.getD 3 "") 10 0 = some stratum)
    (h4 : ParseInt (fields.getD 4 "") 10 0 = some poll)
    (h5 : ParseInt (fields.getD 5 "") 8 0 = some reach)
    (h6 : ParseInt (fields.getD 6 "") 10 0 = some lastRx)
    (h7 : parseFloat (fields.getD 7 "") = some offset)
    (h8 : parseFloat (fields.getD 8 "") = some rawOffset)
    (h9 : parseFloat (fields.getD 9 "") = some errorMargin) :
    (∀ m ∈ [("^", (0 : Int)), ("=", 1), ("#", 2), (" ", -1)],
      ∀ st ∈ [("*", (0 : Int)), ("?", 1), ("x", 2), ("~", 3), ("+", 4), ("-", 5), (" ", -1)],
      fields.getD 0 "" = m.1 → fields.getD 1 "" = st.1 →
      parseSourcesLine parseFloat fields
        = ⟨some [("clockMode", Value.int m.2),
                 ("clockState", Value.int st.2),
                 ("stratum", Value.int64 stratum),
                 ("poll", Value.int64 poll),
                 ("reach", Value.int64 reach),
                 ("lastRx", Value.int64 lastRx),
                 ("offset", Value.float offset),
                 ("rawOffset", Value.float rawOffset),
                 ("errorMargin", Value.float errorMargin)],
           some [("command", "sources"), ("clockId", fields.getD 2 "")],
           none⟩) ∧
    ((fields.getD 0 "" ∉ ["^", "=", "#", " "] ∨
        fields.getD 1 "" ∉ ["*", "?", "x", "~", "+", "-", " "]) →
      ∃ c, parseSourcesLine parseFloat fields = ⟨none, none, some (ParseError.formatError c)⟩) := by
  constructor
  · intro m hm st hst h0 h1
    have hm1 : modes.lookup (fields.getD 0 "") = some m.2 := by
      rw [h0]
      simp only [List.mem_cons, List.mem_singleton, List.not_mem_nil, or_false] at hm
      rcases hm with rfl | rfl | rfl | rfl <;> rfl
    have hst1 : states.lookup (fields.getD 1 "") = some st.2 := by
      rw [h1]
      simp only [List.mem_cons, List.mem_singleton, List.not_mem_nil, or_false] at hst
      rcases hst with rfl | rfl | rfl | rfl | rfl | rfl | rfl <;> rfl
    unfold parseSourcesLine
    simp only [hlen, ne_eq, not_true_eq_false, if_false, convMode, convState, convInt, convFloat,
      hm1, hst1, h3, h4, h5, h6, h7, h8, h9]
    rfl
  · intro h
    unfold parseSourcesLine
    simp only [hlen, ne_eq, not_true_eq_false, if_false]
    cases hm : modes.lookup (fields.getD 0 "") with
    | none =>
      refine ⟨FormatCause.unknownClockMode (fields.getD 0 ""), ?_⟩
      simp only [convMode, hm]
      rfl
    | some m =>
      have hs : states.lookup (fields.getD 1 "") = none := by
        rcases h with h | h
        · rw [modes_lookup_eq_none _ h] at hm
          cases hm
        · exact states_lookup_eq_none _ h
      refine ⟨FormatCause.unknownClockState (fields.getD 1 ""), ?_⟩
      simp only [convMode, convState, hm, hs]
      rfl

/-- C10, on a sources line with mode `^` and state `*`, and on one with the mode `@`. -/
theorem sources_enum_decode_witness :
    parseSourcesLine parseDecimal ["^", "*", "GPS", "0", "4", "377", "12", "0.1", "0.2", "0.3"]
      = ⟨some [("clockMode", Value.int 0),
               ("clockState", Value.int 0),
               ("stratum", Value.int64 0),
               ("poll", Value.int64 4),
               ("reach", Value.int64 255),
               ("lastRx", Value.int64 12),
               ("offset", Value.float ⟨false, 1, 1⟩),
               ("rawOffset", Value.float ⟨false, 2, 1⟩),
               ("errorMargin", Value.float ⟨false, 3, 1⟩)],
         some [("command", "sources"), ("clockId", "GPS")],
         none⟩ ∧
    ∃ c, parseSourcesLine parseDecimal
        ["@", "*", "GPS", "0", "4", "377", "12", "0.1", "0.2", "0.3"]
      = ⟨none, none, some (ParseError.formatError c)⟩ :=
  ⟨(sources_enum_decode parseDecimal
      ["^", "*", "GPS", "0", "4", "377", "12", "0.1", "0.2", "0.3"] 0 4 255 12
      ⟨false, 1, 1⟩ ⟨false, 2, 1⟩ ⟨false, 3, 1⟩ rfl (by decide) (by decide) (by decide)
      (by decide) (by decide) (by decide) (by decide)).1 ("^", 0) (by decide) ("*", 0)
      (by decide) rfl rfl,
   (sources_enum_decode parseDecimal
      ["@", "*", "GPS", "0", "4", "377", "12", "0.1", "0.2", "0.3"] 0 4 255 12
      ⟨false, 1, 1⟩ ⟨false, 2, 1⟩ ⟨false, 3, 1⟩ rfl (by decide) (by decide) (by decide)
      (by decide) (by decide) (by decide) (by decide)).2 (Or.inl (by decide))⟩

/-- C11. For a sources line of 10 fields that is well-formed otherwise, `parseSourcesLine`
reads field 5 in base 8: when the field is a string of digits below 8, `reach` is its value
as a base-8 numeral. The fields 3, 4 and 6 (`stratum`, `poll`, `lastRx`) are read in base 10.
Every line of 10 fields whose field 5 contains a digit `8` or `9` gets a `formatError`. The
digit lists are in the order written, and the values fit into an `int64`. -/
theorem sources_reach_octal (fields : List String) (m st : Int) (d3 d4 d5 d6 : List Nat)
    (offset rawOffset errorMargin : F)
    (hlen : fields.length = 10)
    (h0 : modes.lookup (fields.getD 0 "") = some m)
    (h1 : states.lookup (fields.getD 1 "") = some st)
    (h3 : fields.getD 3 "" = String.mk (d3.map Nat.digitChar) ∧ d3 ≠ [] ∧
      (∀ d ∈ d3, d < 10) ∧ Nat.ofDigits 10 d3.reverse < 2 ^ 63)
    (h4 : fields.getD 4 "" = String.mk (d4.map Nat.digitChar) ∧ d4 ≠ [] ∧
      (∀ d ∈ d4, d < 10) ∧ Nat.ofDigits 10 d4.reverse < 2 ^ 63)
    (h5 : fields.getD 5 "" = String.mk (d5.map Nat.digitChar) ∧ d5 ≠ [] ∧
      (∀ d ∈ d5, d < 8) ∧ Nat.ofDigits 8 d5.reverse < 2 ^ 63)
    (h6 : fields.getD 6 "" = String.mk (d6.map Nat.digitChar) ∧ d6 ≠ [] ∧
      (∀ d ∈ d6, d < 10) ∧ Nat.ofDigits 10 d6.reverse < 2 ^ 63)
    (h7 : parseFloat (fields.getD 7 "") = some offset)
    (h8 : parseFloat (fields.getD 8 "") = some rawOffset)
    (h9 : parseFloat (fields.getD 9 "") = some errorMargin) :
    parseSourcesLine parseFloat fields
        = ⟨some [("clockMode", Value.int m),
                 ("clockState", Value.int st),
                 ("stratum", Value.int64 ((Nat.ofDigits 10 d3.reverse : Nat) : Int)),
                 ("poll", Value.int64 ((Nat.ofDigits 10 d4.reverse : Nat) : Int)),
                 ("reach", Value.int64 ((Nat.ofDigits 8 d5.reverse : Nat) : Int)),
                 ("lastRx", Value.int64 ((Nat.ofDigits 10 d6.reverse : Nat) : Int)),
                 ("offset", Value.float offset),
                 ("rawOffset", Value.float rawOffset),
                 ("errorMargin", Value.float errorMargin)],
           some [("command", "sources"), ("clockId", fields.getD 2 "")],
           none⟩ ∧
    ∀ g : List String, g.length = 10 →
      ('8' ∈ (g.getD 5 "").data ∨ '9' ∈ (g.getD 5 "").data) →
      ∃ c, parseSourcesLine parseFloat g = ⟨none, none, some (ParseError.formatError c)⟩ := by
  constructor
  · refine parseSourcesLine_ok parseFloat fields m st _ _ _ _ offset rawOffset errorMargin hlen
      h0 h1 ?_ ?_ ?_ ?_ h7 h8 h9
    · rw [h3.1]
      exact ParseInt_digits 10 (le_refl _) d3 h3.2.1 h3.2.2.1 h3.2.2.2 0 (Or.inl rfl)
    · rw [h4.1]
      exact ParseInt_digits 10 (le_refl _) d4 h4.2.1 h4.2.2.1 h4.2.2.2 0 (Or.inl rfl)
    · rw [h5.1]
      exact ParseInt_digits 8 (by omega) d5 h5.2.1 h5.2.2.1 h5.2.2.2 0 (Or.inl rfl)
    · rw [h6.1]
      exact ParseInt_digits 10 (le_refl _) d6 h6.2.1 h6.2.2.1 h6.2.2.2 0 (Or.inl rfl)
  · intro g hg hbad
    exact parseSourcesLine_bad_reach parseFloat g hg (ParseInt_octal_bad _ hbad 0)

/-- C11, on sources lines with the reach fields `17` and `377`, and on one with `18`. -/
theorem sources_reach_octal_witness :
    (parseSourcesLine parseDecimal ["^", "*", "GPS", "0", "4", "17", "12", "0.1", "0.2", "0.3"]
      = ⟨some [("clockMode", Value.int 0),
               ("clockState", Value.int 0),
               ("stratum", Value.int64 0),
               ("poll", Value.int64 4),
               ("reach", Value.int64 15),
               ("lastRx", Value.int64 12),
               ("offset", Value.float ⟨false, 1, 1⟩),
               ("rawOffset", Value.float ⟨false, 2, 1⟩),
               ("errorMargin", Value.float ⟨false, 3, 1⟩)],
         some [("command", "sources"), ("clockId", "GPS")],
         none⟩) ∧
    (parseSourcesLine parseDecimal (split sourcesLine ',')
      = ⟨some [("clockMode", Value.int 0),
               ("clockState", Value.int 0),
               ("stratum", Value.int64 0),
               ("poll", Value.int64 4),
               ("reach", Value.int64 255),
               ("lastRx", Value.int64 12),
               ("offset", Value.float ⟨false, 1, 1⟩),
               ("rawOffset", Value.float ⟨false, 2, 1⟩),
               ("errorMargin", Value.float ⟨false, 3, 1⟩)],
         some [("command", "sources"), ("clockId", "GPS")],
         none⟩) ∧
    ∃ c, parseSourcesLine parseDecimal
        ["^", "*", "GPS", "0", "4", "18", "12", "0.1", "0.2", "0.3"]
      = ⟨none, none, some (ParseError.formatError c)⟩ :=
  have h17 := sources_reach_octal parseDecimal
    ["^", "*", "GPS", "0", "4", "17", "12", "0.1", "0.2", "0.3"] 0 0 [0] [4] [1, 7] [1, 2]
    ⟨false, 1, 1⟩ ⟨false, 2, 1⟩ ⟨false, 3, 1⟩ rfl (by decide) (by decide)
    ⟨by decide, by decide, by decide, by decide⟩ ⟨by decide, by decide, by decide, by decide⟩
    ⟨by decide, by decide, by decide, by decide⟩ ⟨by decide, by decide, by decide, by decide⟩
    (by decide) (by decide) (by decide)
  have h377 := sources_reach_octal parseDecimal (split sourcesLine ',') 0 0 [0] [4] [3, 7, 7]
    [1, 2] ⟨false, 1, 1⟩ ⟨false, 2, 1⟩ ⟨false, 3, 1⟩ (by decide) (by decide) (by decide)
    ⟨by decide, by decide, by decide, by decide⟩ ⟨by decide, by decide, by decide, by decide⟩
    ⟨by decide, by decide, by decide, by decide⟩ ⟨by decide, by decide, by decide, by decide⟩
    (by decide) (by decide) (by decide)
  ⟨h17.1, h377.1,
    h17.2 ["^", "*", "GPS", "0", "4", "18", "12", "0.1", "0.2", "0.3"] rfl (Or.inl (by decide))⟩

/-- C12. For a list `f` of 14 fields whose field 2 converts as a decimal integer and whose
fields 3 to 12 convert as floats, `parseTrackingLine` returns no error, the tag-set of
`tracking`, and a field-set with exactly the 14 keys `refId` = `f[1]`, `refIdHex` = `f[0]`,
`stratum` = the integer of `f[2]`, `refTime`, `systemTimeOffset`, `lastOffset`, `rmsOffset`,
`frequency`, `freqResidual`, `freqSkew`, `rootDelay`, `rootDispersion`, `updateInterval` = the
floats of `f[3]` to `f[12]`, and `leapStatus` = `f[13]` as a string. -/
theorem tracking_field_set (f : List String) (stratum : Int)
    (refTime systemTime lastOffset rMSOffset frequency freqResidual freqSkew rootDelay
      rootDispersion updateInterval : F)
    (hlen : f.length = 14)
    (h2 : ParseInt (f.getD 2 "") 10 0 = some stratum)
    (h3 : parseFloat (f.getD 3 "") = some refTime)
    (h4 : parseFloat (f.getD 4 "") = some systemTime)
    (h5 : parseFloat (f.getD 5 "") = some lastOffset)
    (h6 : parseFloat (f.getD 6 "") = some rMSOffset)
    (h7 : parseFloat (f.getD 7 "") = some frequency)
    (h8 : parseFloat (f.getD 8 "") = some freqResidual)
    (h9 : parseFloat (f.getD 9 "") = some freqSkew)
    (h10 : parseFloat (f.getD 10 "") = some rootDelay)
    (h11 : parseFloat (f.getD 11 "") = some rootDispersion)
    (h12 : parseFloat (f.getD 12 "") = some updateInterval) :
    parseTrackingLine parseFloat f
      = ⟨some [("refId", Value.str (f.getD 1 "")),
               ("refIdHex", Value.str (f.getD 0 "")),
               ("stratum", Value.int64 stratum),
               ("refTime", Value.float refTime),
               ("systemTimeOffset", Value.float systemTime),
               ("lastOffset", Value.float lastOffset),
               ("rmsOffset", Value.float rMSOffset),
               ("frequency", Value.float frequency),
               ("freqResidual", Value.float freqResidual),
               ("freqSkew", Value.float freqSkew),
               ("rootDelay", Value.float rootDelay),
               ("rootDispersion", Value.float rootDispersion),
               ("updateInterval", Value.float updateInterval),
               ("leapStatus", Value.str (f.getD 13 ""))],
         some [("command", "tracking"), ("clockId", "chrony")],
         none⟩ := by
  unfold parseTrackingLine
  simp only [hlen, ne_eq, not_true_eq_false, if_false, convInt, convFloat,
    h2, h3, h4, h5, h6, h7, h8, h9, h10, h11, h12]
  rfl

/-- C12, on the tracking line of `TestGather`: `refId` is `PPS`, `refIdHex` is `50505300`,
`stratum` is 1, `updateInterval` is 16.0 and `leapStatus` is `Normal`. -/
theorem tracking_field_set_witness :
    parseTrackingLine parseDecimal (split trackingLine ',')
      = ⟨testTrackingRecord.fields, testTrackingRecord.tags, none⟩ ∧
    testTrackingRecord.fields
      = some [("refId", Value.str "PPS"),
              ("refIdHex", Value.str "50505300"),
              ("stratum", Value.int64 1),
              ("refTime", Value.float ⟨false, 1541793798895264285, 9⟩),
              ("systemTimeOffset", Value.float ⟨true, 1007, 9⟩),
              ("lastOffset", Value.float ⟨false, 291, 9⟩),
              ("rmsOffset", Value.float ⟨false, 239, 9⟩),
              ("frequency", Value.float ⟨true, 17957, 3⟩),
              ("freqResidual", Value.float ⟨false, 0, 3⟩),
              ("freqSkew", Value.float ⟨false, 5, 3⟩),
              ("rootDelay", Value.float ⟨false, 1000, 9⟩),
              ("rootDispersion", Value.float ⟨false, 10123, 9⟩),
              ("updateInterval", Value.float ⟨false, 160, 1⟩),
              ("leapStatus", Value.str "Normal")] :=
  ⟨tracking_field_set parseDecimal (split trackingLine ',') 1
      ⟨false, 1541793798895264285, 9⟩ ⟨true, 1007, 9⟩ ⟨false, 291, 9⟩ ⟨false, 239, 9⟩
      ⟨true, 17957, 3⟩ ⟨false, 0, 3⟩ ⟨false, 5, 3⟩ ⟨false, 1000, 9⟩ ⟨false, 10123, 9⟩
      ⟨false, 160, 1⟩ (by decide) (by decide) (by decide) (by decide) (by decide) (by decide)
      (by decide) (by decide) (by decide) (by decide) (by decide) (by decide),
    rfl⟩

/-- C13. Every record that `parseChronycOutput` hands to the accumulator has the tag-set of
the specification for the command that was current in the pass that made it: the `command`
tag is the name of that command and the `clockId` tag is `chrony` for tracking and
serverstats, field 2 of the line for sources, field 0 for sourcestats and field 0 for
ntpdata, which has `clockIdHex` = field 1 as well. First for one pass from any state, then
for all records made within any number of passes of a call, then for the records of a call
that has returned. -/
theorem emitted_tags (cmds : List String) (out : String) :
    (∀ s s1 : State F, step parseFloat s = .next s1 → s1.acc = s.acc ∨
      ∃ c l rest r, s.lines = l :: rest ∧
        (s.cmd = c ∨ (s.cmd = "" ∧ s.cmds.head? = some c)) ∧
        dispatch parseFloat c (split l ',') = some r ∧
        s1.acc = s.acc ++ [⟨"chronyc", r.fields, some (specTags c (split l ','))⟩]) ∧
    (∀ n, ∀ rec ∈ recordsAfter parseFloat n (initState cmds out),
      ∃ c ∈ cmds, ∃ l ∈ outputLines out, ∃ r,
        dispatch parseFloat c (split l ',') = some r ∧
        rec = ⟨"chronyc", r.fields, some (specTags c (split l ','))⟩) ∧
    (∀ fuel res, parseChronycOutput parseFloat fuel cmds out = some res →
      ∀ rec ∈ res.records, ∃ c ∈ cmds, ∃ l ∈ outputLines out, ∃ r,
        dispatch parseFloat c (split l ',') = some r ∧
        rec = ⟨"chronyc", r.fields, some (specTags c (split l ','))⟩) := by
  have hall : ∀ n, ∀ rec ∈ recordsAfter parseFloat n (initState cmds out),
      ∃ c ∈ cmds, ∃ l ∈ outputLines out, ∃ r,
        dispatch parseFloat c (split l ',') = some r ∧
        rec = ⟨"chronyc", r.fields, some (specTags c (split l ','))⟩ := by
    intro n
    apply recordsAfter_tags parseFloat cmds (outputLines out) n (initState cmds out)
    · intro rec hrec
      simp [initState] at hrec
    · intro x hx
      exact hx
    · exact Or.inl rfl
    · intro l hl
      exact hl
  refine ⟨?_, hall, ?_⟩
  · intro s s1 hstep
    obtain ⟨l, rest, c, cmds1, hl, hsel, hp⟩ := step_next parseFloat s s1 hstep
    obtain ⟨r, hd, hcase⟩ := process_next parseFloat cmds1 c l rest s.acc s1 hp
    rcases hcase with ⟨hok, hs1⟩ | ⟨g, e, _, _, x, cs2, _, hs1⟩ | ⟨e, _, hs1⟩
    · right
      refine ⟨c, l, rest, r, hl, ?_, hd, ?_⟩
      · rcases hsel with ⟨h0, cs, hcs, _⟩ | ⟨_, hc, _⟩
        · exact Or.inr ⟨h0, by simp [hcs]⟩
        · exact Or.inl hc.symm
      · rw [hs1, addFields, dispatch_tags parseFloat c _ r hd hok]
    · left
      rw [hs1]
    · left
      rw [hs1]
  · intro fuel res hres rec hrec
    rw [parseChronycOutput] at hres
    rw [run_records parseFloat fuel _ res hres] at hrec
    exact hall fuel rec hrec

/-- C14. The argument vector of `Gather` for a non-empty tool path `p` and a command list
`cs`. Without sudo the executor is called once, with the executable `p` and the arguments
`-c`, `-m` followed by the commands of `cs` in order, one argument each; with sudo it is
called once with the executable `sudo` and the arguments `-n`, `p`, `-c`, `-m` followed by
the commands of `cs`. What `Gather` does next is fixed by what the executor answers to exactly
that executable and those arguments: on an error the error "failed to run command" with the
executable and the arguments, else the parse of the output for the command list `cs`. -/
theorem gather_argument_vector (exec : String → List String → String × Option String)
    (fuel : Nat) (p : String) (cs : List String) (hp : p ≠ "") :
    ((Gather parseFloat exec fuel ⟨false, cs, p⟩).calls = [(p, ["-c", "-m"] ++ cs)] ∧
      (Gather parseFloat exec fuel ⟨true, cs, p⟩).calls
        = [("sudo", ["-n", p, "-c", "-m"] ++ cs)]) ∧
    Gather parseFloat exec fuel ⟨false, cs, p⟩
      = ⟨[(p, ["-c", "-m"] ++ cs)],
          match (exec p (["-c", "-m"] ++ cs)).2 with
          | some err =>
            some ([], GatherExit.runFailed (p :: (["-c", "-m"] ++ cs)) err
              (exec p (["-c", "-m"] ++ cs)).1)
          | none =>
            (parseChronycOutput parseFloat fuel cs (exec p (["-c", "-m"] ++ cs)).1).map
              (fun r => (r.records, GatherExit.parsed r.exit))⟩ ∧
    Gather parseFloat exec fuel ⟨true, cs, p⟩
      = ⟨[("sudo", ["-n", p, "-c", "-m"] ++ cs)],
          match (exec "sudo" (["-n", p, "-c", "-m"] ++ cs)).2 with
          | some err =>
            some ([], GatherExit.runFailed ("sudo" :: (["-n", p, "-c", "-m"] ++ cs)) err
              (exec "sudo" (["-n", p, "-c", "-m"] ++ cs)).1)
          | none =>
            (parseChronycOutput parseFloat fuel cs
                (exec "sudo" (["-n", p, "-c", "-m"] ++ cs)).1).map
              (fun r => (r.records, GatherExit.parsed r.exit))⟩ := by
  have hlen : p.length ≠ 0 := by
    intro h
    apply hp
    cases p with
    | mk d =>
      have hd : d = [] := List.length_eq_zero.mp h
      rw [hd]
  have h1 : Gather parseFloat exec fuel ⟨false, cs, p⟩
      = ⟨[(p, ["-c", "-m"] ++ cs)],
          match (exec p (["-c", "-m"] ++ cs)).2 with
          | some err =>
            some ([], GatherExit.runFailed (p :: (["-c", "-m"] ++ cs)) err
              (exec p (["-c", "-m"] ++ cs)).1)
          | none =>
            (parseChronycOutput parseFloat fuel cs (exec p (["-c", "-m"] ++ cs)).1).map
              (fun r => (r.records, GatherExit.parsed r.exit))⟩ := by
    unfold Gather
    simp only [hlen, if_false, Bool.false_eq_true, List.nil_append]
    rcases hx : exec p (["-c", "-m"] ++ cs) with ⟨out, _ | err⟩ <;> rfl
  have h2 : Gather parseFloat exec fuel ⟨true, cs, p⟩
      = ⟨[("sudo", ["-n", p, "-c", "-m"] ++ cs)],
          match (exec "sudo" (["-n", p, "-c", "-m"] ++ cs)).2 with
          | some err =>
            some ([], GatherExit.runFailed ("sudo" :: (["-n", p, "-c", "-m"] ++ cs)) err
              (exec "sudo" (["-n", p, "-c", "-m"] ++ cs)).1)
          | none =>
            (parseChronycOutput parseFloat fuel cs
                (exec "sudo" (["-n", p, "-c", "-m"] ++ cs)).1).map
              (fun r => (r.records, GatherExit.parsed r.exit))⟩ := by
    unfold Gather
    simp only [hlen, if_false, if_true, List.nil_append]
    rw [show ["-n", p] ++ ["-c", "-m"] ++ cs = ["-n", p, "-c", "-m"] ++ cs from rfl]
    rcases hx : exec "sudo" (["-n", p, "-c", "-m"] ++ cs) with ⟨out, _ | err⟩ <;> rfl
  refine ⟨⟨?_, ?_⟩, h1, h2⟩
  · rw [h1]
  · rw [h2]

/-- C14, on the path and the commands of `TestGather` with the helper process of the tests as
executor, which answers only to `chronyc -c -m`: without sudo the call gives the two records
that the test expects; with sudo the helper is handed `sudo -n chronyc -c -m tracking
serverstats`, does not know the command `sudo`, and the call ends with the error "failed to
run command". -/
theorem gather_argument_vector_witness :
    Gather parseDecimal helperProcess 3 ⟨false, ["tracking", "serverstats"], "chronyc"⟩
      = ⟨[("chronyc", ["-c", "-m", "tracking", "serverstats"])],
          some ([testTrackingRecord, testServerStatsRecord], GatherExit.parsed Exit.nil)⟩ ∧
    Gather parseDecimal helperProcess 3 ⟨true, ["tracking", "serverstats"], "chronyc"⟩
      = ⟨[("sudo", ["-n", "chronyc", "-c", "-m", "tracking", "serverstats"])],
          some ([], GatherExit.runFailed
            ["sudo", "-n", "chronyc", "-c", "-m", "tracking", "serverstats"]
            "exit status 1" "command not found")⟩ :=
  have h := gather_argument_vector parseDecimal helperProcess 3 "chronyc"
    ["tracking", "serverstats"] (by decide)
  ⟨h.2.1.trans (by decide), h.2.2.trans (by decide)⟩

/-- C15. With an empty tool path, for every command list, sudo setting and executor, `Gather`
returns the error "chronyc not found" without a call of the executor and without a record. -/
theorem gather_tool_not_found (exec : String → List String → String × Option String)
    (fuel : Nat) (useSudo : Bool) (cs : List String) :
    Gather parseFloat exec fuel ⟨useSudo, cs, ""⟩
      = ⟨[], some ([], GatherExit.notFound)⟩ := by
  unfold Gather
  rfl

/-- C16. A single-line command `c` (`tracking` or `serverstats`) leaves `cmds` in the pass that
makes it current, whatever the line. If the line it is tried on has a wrong field count for
it, the pass ends the call with the error "Wrong field count for mandatory command": the line
is not tried with another command, no record is made for it or a later line, and the records
made before are kept. So a call whose output starts with well-formed lines for a run of
single-line commands, followed by such a line for `c`, returns their records and that
error. -/
theorem single_line_wrong_count (items : List (String × String × Ret F)) (c : String)
    (cs : List String) (l : String) (rest : List String) (acc : List (Record F)) (out : String)
    (k : Nat)
    (hc : c = "tracking" ∨ c = "serverstats")
    (hcount : (c = "tracking" → (split l ',').length ≠ 14) ∧
      (c = "serverstats" → (split l ',').length ≠ 5))
    (hitems : ∀ x ∈ items, (x.1 = "tracking" ∨ x.1 = "serverstats") ∧
      dispatch parseFloat x.1 (split x.2.1 ',') = some x.2.2 ∧ x.2.2.err = none)
    (hout : outputLines out = items.map (fun x => x.2.1) ++ l :: rest) :
    (∀ l1 rest1 s1, step parseFloat ⟨c :: cs, "", l1 :: rest1, acc⟩ = .next s1 → s1.cmds = cs) ∧
    step parseFloat ⟨c :: cs, "", l :: rest, acc⟩ = .done ⟨acc, Exit.wrongFieldCount c⟩ ∧
    parseChronycOutput parseFloat (items.length + 1 + k) (items.map (fun x => x.1) ++ c :: cs) out
      = some ⟨items.map (fun x => (⟨"chronyc", x.2.2.fields, x.2.2.tags⟩ : Record F)),
          Exit.wrongFieldCount c⟩ := by
  have hs := singleLine_of_single hc
  refine ⟨?_, step_single_wrong_count parseFloat c cs l rest acc hc hcount, ?_⟩
  · intro l1 rest1 s1 hstep
    obtain ⟨l2, rest2, c2, cmds1, hl, hsel, hp⟩ := step_next parseFloat _ s1 hstep
    have hsel1 : c2 = c ∧ cmds1 = cs := by
      rcases hsel with ⟨_, cs3, hcs, h1⟩ | ⟨hne, _, _⟩
      · simp only [List.cons.injEq] at hcs
        obtain ⟨h2, h3⟩ := hcs
        subst h2 h3
        simp only [hs, if_true] at h1
        exact ⟨rfl, h1⟩
      · exact absurd rfl hne
    obtain ⟨h2, h3⟩ := hsel1
    subst h2 h3
    obtain ⟨r, _, hcase⟩ := process_next parseFloat cmds1 c2 l2 rest2 acc s1 hp
    rcases hcase with ⟨_, hs1⟩ | ⟨g, e, _, hns, _⟩ | ⟨e, _, hs1⟩
    · rw [hs1]
    · rw [hs] at hns
      cases hns
    · rw [hs1]
  · have h := run_single_lines parseFloat items
      (fun x hx => ⟨singleLine_of_single (hitems x hx).1, (hitems x hx).2⟩) (c :: cs)
      (l :: rest) [] (1 + k)
    simp only [List.nil_append] at h
    rw [parseChronycOutput, initState, hout, Nat.add_assoc, h, Nat.add_comm 1 k]
    exact run_of_done parseFloat k _ _
      (step_single_wrong_count parseFloat c cs l rest _ hc hcount)

/-- C16, on the commands of `TestGather` with a serverstats line of three fields followed by
a good one: the tracking record is kept and the call ends with the error. -/
theorem single_line_wrong_count_witness :
    parseChronycOutput parseDecimal 2 ["tracking", "serverstats"]
        (trackingLine ++ "\n1,2,3\n" ++ serverstatsLine)
      = some ⟨[testTrackingRecord], Exit.wrongFieldCount "serverstats"⟩ :=
  (single_line_wrong_count parseDecimal
    [("tracking", trackingLine, parseTrackingLine parseDecimal (split trackingLine ','))]
    "serverstats" [] "1,2,3" [serverstatsLine] []
    (trackingLine ++ "\n1,2,3\n" ++ serverstatsLine) 0 (Or.inr rfl) (by decide) (by decide)
    (by decide)).2.2

/-- C17 (as amended). When the extractor of a list command `L` reports a `fieldCountError` on a
line, `L` is at the head of `cmds` (it stays there while it is current); the pass drops `L`
itself from `cmds`, clears `cmd` and keeps the line. No other command is dropped: the next
pass takes the command that follows `L` and hands it the same line. -/
theorem list_fieldCount_drops_itself (L : String) (cs : List String) (cur l : String)
    (rest : List String) (acc : List (Record F)) (r : Ret F) (g e : Nat)
    (hL : L = "sources" ∨ L = "sourcestats" ∨ L = "ntpdata")
    (hcur : cur = "" ∨ cur = L)
    (hd : dispatch parseFloat L (split l ',') = some r)
    (herr : r.err = some (ParseError.fieldCountError g e)) :
    step parseFloat ⟨L :: cs, cur, l :: rest, acc⟩ = .next ⟨cs, "", l :: rest, acc⟩ ∧
    ∀ c2 cs2, cs = c2 :: cs2 →
      step parseFloat ⟨cs, "", l :: rest, acc⟩
        = process parseFloat (if singleLine c2 then cs2 else c2 :: cs2) c2 l rest acc := by
  have hs := singleLine_of_list hL
  have hne := ne_empty_of_dispatch parseFloat L _ r hd
  constructor
  · rcases hcur with h | h
    · subst h
      exact step_list_skip parseFloat L cs l rest acc r g e hs hd herr
    · subst h
      simp [step, process, hne, hd, herr, hs]
  · intro c2 cs2 hcs
    subst hcs
    simp [step]

/-- C17 as amended, on `sources` before the commands of `TestGather` and the tracking line. -/
theorem list_fieldCount_drops_itself_witness :
    step parseDecimal
        ⟨["sources", "tracking", "serverstats"], "", [trackingLine, serverstatsLine], []⟩
      = .next ⟨["tracking", "serverstats"], "", [trackingLine, serverstatsLine], []⟩ :=
  (list_fieldCount_drops_itself parseDecimal "sources" ["tracking", "serverstats"] ""
    trackingLine [serverstatsLine] [] (parseSourcesLine parseDecimal (split trackingLine ','))
    14 10 (Or.inl rfl) (Or.inl rfl) (by decide) (by decide)).1

/-- C17 as stated fails. With `sources` before `tracking` and `serverstats` and a tracking
line first, the pass in which `sources` reports the `fieldCountError` does not leave
`["serverstats"]`: it leaves `["tracking", "serverstats"]`, the next pass parses the line as
tracking, and the whole call makes both records and returns `nil`. -/
theorem list_fieldCount_extra_drop_counterexample :
    step parseDecimal
        ⟨["sources", "tracking", "serverstats"], "", [trackingLine, serverstatsLine], []⟩
      ≠ .next ⟨["serverstats"], "", [trackingLine, serverstatsLine], []⟩ ∧
    step parseDecimal
        ⟨["tracking", "serverstats"], "", [trackingLine, serverstatsLine], []⟩
      = .next ⟨["serverstats"], "", [serverstatsLine], [testTrackingRecord]⟩ ∧
    parseChronycOutput parseDecimal 4 ["sources", "tracking", "serverstats"]
        (trackingLine ++ "\n" ++ serverstatsLine)
      = some ⟨[testTrackingRecord, testServerStatsRecord], Exit.nil⟩ := by
  decide

/-- C18. A pass whose current command is not one of `tracking`, `serverstats`, `sources`,
`sourcestats`, `ntpdata` ends the call with the error "Unknown cmd" and adds no record,
whether the command was current already or is taken from the head of `cmds`. For a command
list that starts with such a name, the call ends so on every output text, with no record. -/
theorem unknown_command (c : String) (cs : List String) (out : String) (k : Nat)
    (hc : c ∉ ["tracking", "serverstats", "sources", "sourcestats", "ntpdata"]) :
    (∀ cmds l rest (acc : List (Record F)), c ≠ "" →
      step parseFloat ⟨cmds, c, l :: rest, acc⟩ = .done ⟨acc, Exit.unknownCmd c⟩) ∧
    (∀ l rest (acc : List (Record F)),
      step parseFloat ⟨c :: cs, "", l :: rest, acc⟩ = .done ⟨acc, Exit.unknownCmd c⟩) ∧
    parseChronycOutput parseFloat (k + 1) (c :: cs) out = some ⟨[], Exit.unknownCmd c⟩ := by
  have hd : ∀ fields, dispatch parseFloat c fields = none :=
    fun fields => dispatch_unknown parseFloat c fields hc
  have h2 : ∀ l rest (acc : List (Record F)),
      step parseFloat ⟨c :: cs, "", l :: rest, acc⟩ = .done ⟨acc, Exit.unknownCmd c⟩ := by
    intro l rest acc
    simp [step, process, hd]
  refine ⟨?_, h2, ?_⟩
  · intro cmds l rest acc hne
    simp [step, process, hd, hne]
  · obtain ⟨l, rest, hl⟩ := outputLines_cons out
    rw [parseChronycOutput, initState, hl]
    exact run_of_done parseFloat k _ _ (h2 l rest [])

/-- C18, on a command list that starts with the name `bogus`, with the output of
`TestGather`. -/
theorem unknown_command_witness :
    parseChronycOutput parseDecimal 1 ["bogus", "tracking"] testOutput
      = some ⟨[], Exit.unknownCmd "bogus"⟩ :=
  (unknown_command parseDecimal "bogus" ["tracking"] testOutput 0 (by decide)).2.2

/-- C19. If no extractor returns a `formatError` on any line of the output, then
`parseChronycOutput` terminates, within as many passes as there are lines and commands plus
one, and the number of extractor calls over the whole run, counted up to any number of
passes, is at most the number of lines plus the length of the command list. -/
theorem bounded_without_formatError (cmds : List String) (out : String)
    (hnf : ∀ l ∈ outputLines out, ∀ c r e, dispatch parseFloat c (split l ',') = some r →
      r.err ≠ some (ParseError.formatError e)) :
    (∃ res, ∀ k, parseChronycOutput parseFloat
        ((outputLines out).length + cmds.length + 1 + k) cmds out = some res) ∧
    ∀ n, invocations parseFloat n (initState cmds out)
      ≤ (outputLines out).length + cmds.length := by
  constructor
  · exact run_terminates parseFloat _ (initState cmds out) (le_refl _) hnf
  · intro n
    exact invocations_le parseFloat n (initState cmds out) hnf

/-- C19, on `sources` before the commands of `TestGather` and the two lines of the test: the
call returns within 6 passes and makes 3 extractor calls (sources and tracking on the first
line, serverstats on the second), at most 2 + 3. -/
theorem bounded_without_formatError_witness :
    ((∃ res, ∀ k, parseChronycOutput parseDecimal (2 + 3 + 1 + k)
        ["sources", "tracking", "serverstats"] testOutput = some res) ∧
      ∀ n, invocations parseDecimal n (initState ["sources", "tracking", "serverstats"] testOutput)
        ≤ 2 + 3) ∧
    invocations parseDecimal 6 (initState ["sources", "tracking", "serverstats"] testOutput)
      = 3 :=
  ⟨bounded_without_formatError parseDecimal ["sources", "tracking", "serverstats"] testOutput
    (by
      intro l hl c r e hd
      have hc := dispatch_some_mem parseDecimal c _ r hd
      have hl1 : l ∈ [trackingLine, serverstatsLine] := hl
      simp only [List.mem_cons, List.mem_singleton, List.not_mem_nil, or_false] at hc hl1
      rcases hl1 with rfl | rfl <;> rcases hc with rfl | rfl | rfl | rfl | rfl <;>
        · cases hd
          exact not_formatError_of_check _ (by decide) e),
   by decide⟩

/-- C20. In every state that the loops of `parseChronycOutput` reach, a current command that
is set and not single-line is the head of the command list left, which is therefore not
empty; and no call, for any command list and output text, ends in the panic of the slice
expression `cmds[1:]` on an empty list. (The index `cmds[0]` is taken only after the test
`len(cmds) == 0`.) -/
theorem no_slice_panic (cmds : List String) (out : String) :
    (∀ n (s : State F), stateAfter parseFloat n (initState cmds out) = some s →
      s.cmd ≠ "" → singleLine s.cmd = false → ∃ cs, s.cmds = s.cmd :: cs) ∧
    (∀ fuel (res : Result F), parseChronycOutput parseFloat fuel cmds out = some res →
      res.exit ≠ Exit.slicePanic) := by
  have hinit : (initState cmds out : State F).cmd ≠ "" →
      singleLine (initState cmds out : State F).cmd = false →
      ∃ cs, (initState cmds out : State F).cmds = (initState cmds out : State F).cmd :: cs := by
    intro hne
    exact absurd rfl hne
  constructor
  · intro n s h
    exact stateAfter_head parseFloat n _ s hinit h
  · intro fuel res h
    exact run_ne_panic parseFloat fuel _ res hinit h

/-- C21. For a command list without duplicates and any output text, the records that
`parseChronycOutput` has made within any number of passes have a trace, one entry per record
in order, with the index of a line of the output, the position of a command in the command
list and the name of that command, such that the record is what the extractor of that command
returns for that line. Along the trace the line indices increase strictly (distinct lines in
line order, at most one record per line), the positions of the commands do not decrease, and a
single-line command does not occur again later (at most one record for each single-line
command). The records of a call that has returned are the records made within its passes. -/
theorem records_in_line_order (cmds : List String) (out : String) (n : Nat)
    (hnodup : cmds.Nodup) :
    (∃ tr : List (Nat × Nat × String),
      List.Forall₂ (fun t rec => ∃ l r, (outputLines out)[t.1]? = some l ∧
        cmds[t.2.1]? = some t.2.2 ∧ cmds.indexOf t.2.2 = t.2.1 ∧
        dispatch parseFloat t.2.2 (split l ',') = some r ∧ r.err = none ∧
        rec = ⟨"chronyc", r.fields, some (specTags t.2.2 (split l ','))⟩) tr
        (recordsAfter parseFloat n (initState cmds out)) ∧
      tr.Pairwise (fun a b => a.1 < b.1 ∧ a.2.1 ≤ b.2.1 ∧
        (singleLine a.2.2 = true → a.2.2 ≠ b.2.2))) ∧
    ∀ res, parseChronycOutput parseFloat n cmds out = some res →
      res.records = recordsAfter parseFloat n (initState cmds out) := by
  refine ⟨?_, fun res h => run_records parseFloat n _ res h⟩
  obtain ⟨tr, htr, hmem, hpw⟩ := recordsAfter_trace parseFloat cmds (outputLines out) n
    (initState cmds out) 0 0 [] rfl rfl (fun hne => absurd rfl hne) (fun hne => absurd rfl hne)
    List.Forall₂.nil (fun t ht => by simp at ht) List.Pairwise.nil
  refine ⟨tr, ?_, ?_⟩
  · refine List.Forall₂.imp ?_ (forall₂_and_left htr hmem)
    rintro t rec ⟨⟨l, r, h1, h3, h4, h5⟩, h2⟩
    exact ⟨l, r, h1, h2, indexOf_eq_of_getElem cmds hnodup _ _ h2, h3, h4, h5⟩
  · refine List.Pairwise.imp_of_mem ?_ hpw
    intro a b ha hb hab
    refine ⟨hab.1, hab.2.1, fun hs heq => ?_⟩
    have h1 := indexOf_eq_of_getElem cmds hnodup _ _ (hmem a ha)
    have h2 := indexOf_eq_of_getElem cmds hnodup _ _ (hmem b hb)
    have h3 := hab.2.2 hs
    rw [heq, h2] at h1
    omega

/-- C21, on `sources` before the commands of `TestGather` and the two lines of the test: within
6 passes the call makes the tracking record from line 0 and the serverstats record from
line 1. -/
theorem records_in_line_order_witness :
    recordsAfter parseDecimal 6 (initState ["sources", "tracking", "serverstats"] testOutput)
      = [testTrackingRecord, testServerStatsRecord] ∧
    ∃ tr : List (Nat × Nat × String),
      List.Forall₂ (fun t rec => ∃ l r, (outputLines testOutput)[t.1]? = some l ∧
        ["sources", "tracking", "serverstats"][t.2.1]? = some t.2.2 ∧
        ["sources", "tracking", "serverstats"].indexOf t.2.2 = t.2.1 ∧
        dispatch parseDecimal t.2.2 (split l ',') = some r ∧ r.err = none ∧
        rec = ⟨"chronyc", r.fields, some (specTags t.2.2 (split l ','))⟩) tr
        (recordsAfter parseDecimal 6
          (initState ["sources", "tracking", "serverstats"] testOutput)) ∧
      tr.Pairwise (fun a b => a.1 < b.1 ∧ a.2.1 ≤ b.2.1 ∧
        (singleLine a.2.2 = true → a.2.2 ≠ b.2.2)) :=
  ⟨by decide,
    (records_in_line_order parseDecimal ["sources", "tracking", "serverstats"] testOutput 6
      (by decide)).1⟩

/-! ## Where the code departs from the specification -/

/-- C4 (evaluation of the code). When the extractor of `sources` reports a `formatError` on a
line `b`, the pass ends without `break Cmd`, so the same line goes to the same extractor
again: on the output `b`, newline, `g` the call does not return for any amount of fuel, and
the record of the next line `g` is never made. -/
theorem formatError_line_never_returns (b g : String) (c : FormatCause) (fuel : Nat)
    (hline : '\n' ∉ b.data)
    (herr : (parseSourcesLine parseFloat (split b ',')).err = some (ParseError.formatError c)) :
    parseChronycOutput parseFloat fuel ["sources"] (b ++ "\n" ++ g) = none := by
  obtain ⟨tail, ht⟩ := outputLines_head b g hline
  rw [parseChronycOutput, initState, ht]
  exact run_select_formatError parseFloat "sources" [] b tail [] _ c (by simp [dispatch]) herr
    fuel

/-- C4, on a sources line with an unparseable stratum followed by a well-formed one. -/
theorem formatError_line_never_returns_witness :
    parseChronycOutput parseDecimal 1000 ["sources"] (badSourcesLine ++ "\n" ++ sourcesLine)
      = none :=
  formatError_line_never_returns parseDecimal badSourcesLine sourcesLine
    (FormatCause.numError "ParseInt" "x") 1000 (by decide) (by decide)

/-- C5 (evaluation of the code). The call need not terminate: when the extractor of the first
command reports a `formatError` on the first line of the output, the line is handed to that
extractor again in every pass and no amount of fuel ends the run. -/
theorem formatError_no_termination (c : String) (cs : List String) (out l : String)
    (rest : List String) (r : Ret F) (e : FormatCause) (fuel : Nat)
    (hout : outputLines out = l :: rest)
    (hd : dispatch parseFloat c (split l ',') = some r)
    (herr : r.err = some (ParseError.formatError e)) :
    parseChronycOutput parseFloat fuel (c :: cs) out = none := by
  rw [parseChronycOutput, initState, hout]
  exact run_select_formatError parseFloat c cs l rest [] r e hd herr fuel

/-- C5, on the commands of `TestGather` and a tracking line with an unparseable stratum. -/
theorem formatError_no_termination_witness :
    parseChronycOutput parseDecimal 1000 ["tracking", "serverstats"]
      (badTrackingLine ++ "\n" ++ serverstatsLine ++ "\n") = none :=
  formatError_no_termination parseDecimal "tracking" ["serverstats"]
    (badTrackingLine ++ "\n" ++ serverstatsLine ++ "\n") badTrackingLine [serverstatsLine]
    (parseTrackingLine parseDecimal (split badTrackingLine ','))
    (FormatCause.numError "ParseInt" "x") 1000 (by decide) (by decide) (by decide)

/-- C6 (evaluation of the code). The empty output text is split into one empty line. For a
command list that starts with list commands followed by a single-line command `c`, the list
commands are dropped on that line and `c` is tried on it: the call ends with the error "Wrong
field count for mandatory command", not with "Not enough output for remaining commands"; no
record is made. -/
theorem empty_output_single_line (pre : List String) (c : String) (post : List String)
    (k : Nat)
    (hpre : ∀ x ∈ pre, x = "sources" ∨ x = "sourcestats" ∨ x = "ntpdata")
    (hc : c = "tracking" ∨ c = "serverstats") :
    parseChronycOutput parseFloat (pre.length + 1 + k) (pre ++ c :: post) ""
      = some ⟨[], Exit.wrongFieldCount c⟩ := by
  have hl : outputLines "" = [""] := by decide
  rw [parseChronycOutput, initState, hl, Nat.add_assoc,
    run_list_skips parseFloat pre hpre (c :: post) "" [] [] (1 + k) (by decide) (by decide)
      (by decide),
    Nat.add_comm 1 k]
  exact run_of_done parseFloat k _ _
    (step_single_fieldCount parseFloat c post "" [] [] hc (by decide) (by decide))

/-- C6, on the command list `["tracking"]`. -/
theorem empty_output_single_line_witness :
    parseChronycOutput parseDecimal 1 ["tracking"] ""
      = some ⟨[], Exit.wrongFieldCount "tracking"⟩ :=
  empty_output_single_line parseDecimal [] "tracking" [] 0 (by decide) (Or.inl rfl)

/-- C9 (evaluation of the code). The empty output text, and the text that is one newline, are
split into one empty line. For a command list of list commands only, every command is dropped
on that line and the call ends with the error "Commands done, but there is more output"; no
record is made. -/
theorem empty_output_list_commands (cmds : List String) (k : Nat)
    (hcmds : ∀ x ∈ cmds, x = "sources" ∨ x = "sourcestats" ∨ x = "ntpdata") :
    (outputLines "" = [""] ∧ outputLines "\n" = [""]) ∧
    parseChronycOutput parseFloat (cmds.length + 1 + k) cmds ""
      = some ⟨[], Exit.moreOutput [""]⟩ ∧
    parseChronycOutput parseFloat (cmds.length + 1 + k) cmds "\n"
      = some ⟨[], Exit.moreOutput [""]⟩ := by
  have hl : outputLines "" = [""] := by decide
  have hl1 : outputLines "\n" = [""] := by decide
  have h := run_list_skips parseFloat cmds hcmds [] "" [] [] (1 + k) (by decide) (by decide)
    (by decide)
  rw [List.append_nil, Nat.add_comm 1 k] at h
  have hdone : run parseFloat (k + 1) ⟨[], "", [""], []⟩
      = some ⟨[], Exit.moreOutput [""]⟩ :=
    run_of_done parseFloat k _ _ (by simp [step, finish])
  refine ⟨⟨hl, hl1⟩, ?_, ?_⟩
  · rw [parseChronycOutput, initState, hl, Nat.add_assoc, Nat.add_comm 1 k, h, hdone]
  · rw [parseChronycOutput, initState, hl1, Nat.add_assoc, Nat.add_comm 1 k, h, hdone]

/-- C9, on the command list `["sources", "sourcestats"]`. -/
theorem empty_output_list_commands_witness :
    parseChronycOutput parseDecimal 3 ["sources", "sourcestats"] ""
      = some ⟨[], Exit.moreOutput [""]⟩ ∧
    parseChronycOutput parseDecimal 3 ["sources", "sourcestats"] "\n"
      = some ⟨[], Exit.moreOutput [""]⟩ :=
  (empty_output_list_commands parseDecimal ["sources", "sourcestats"] 0 (by decide)).2

end Claims

end Chronyc
